import Mathlib

/-!
Shallow embedding of the plugin reconciliation core of `sync-plugins.js`
(first variant in the file), together with the parts of the missing
`utils.js` that the control flow depends on, modelled from the spec.

External collaborators (enrichment providers, the two catalog stores) are
modelled as state-passing functions; a failure oracle `fail : Ev → Option String`
decides whether a given store call throws and with which message, mirroring
that every store call can reject.
-/

namespace Plugins

/-- A JavaScript value as it matters for the `active` field: the expression
`status && status === 'active'` can evaluate to `undefined`, a string, or a
boolean. -/
inductive JsVal where
  | undef : JsVal
  | str : String → JsVal
  | bool : Bool → JsVal
deriving DecidableEq, Repr

/-- One row of `plugins.json` (the manifest): `name`, `description`,
`githubUrl`, `status`.  `status` is `none` when the property is absent. -/
structure ManifestEntry where
  name : String
  description : String
  githubUrl : String
  status : Option String
deriving DecidableEq, Repr

/-- Result of `getRepoInfo` (enrichment provider, external): each field may be
absent. -/
structure RepoInfo where
  githubStars : Option Nat
  authorAvatar : Option String
  authorLink : Option String
  authorName : Option String
deriving DecidableEq, Repr

/-- The three enrichment results fetched by `Promise.all` in `processPlugin`:
`getRepoInfo`, `getNpmDownloads`, `getReadmeContent` (the `content` property,
`none` when the result or the property is absent).  Providers are best-effort
per the spec: a failure degrades to an absent value, never an exception. -/
structure Enrichment where
  repoInfo : Option RepoInfo
  npmDownloads : Option Nat
  readme : Option String
deriving DecidableEq, Repr

/-- The Webflow `fieldData` assembled by `processPlugin`. -/
structure FieldData where
  name : String
  title : String
  slug : String
  description : String
  github : String
  content : String
  npmDownloads : Nat
  githubStars : Nat
  authorLink : Option String
  authorName : Option String
  authorAvatar : Option String
  active : JsVal
deriving DecidableEq, Repr

/-- A Webflow collection item: store-assigned opaque `id` plus `fieldData`. -/
structure WebflowItem where
  id : Nat
  fieldData : FieldData
deriving DecidableEq, Repr

/-- The Algolia item assembled by `processPlugin` (`objectID` is the slug). -/
structure AlgoliaItem where
  objectID : String
  name : String
  description : String
  githubUrl : String
  npmDownloads : Nat
  githubStars : Nat
  authorLink : Option String
  authorName : Option String
  authorAvatar : Option String
deriving DecidableEq, Repr

/-- Modelled from the spec: the content-collection store.  `create-item`
assigns a fresh opaque id (`nextId`), `update-item` replaces the field data of
the item with the given id, `delete-item` removes it. -/
structure WebflowState where
  items : List WebflowItem
  nextId : Nat
deriving DecidableEq, Repr

/-- The four report accumulator lists (`createdPlugins`, `updatedPlugins`,
`deletedPlugins`, `failedPlugins`). -/
structure Report where
  created : List String
  updated : List String
  deleted : List String
  failed : List (String × String)
deriving DecidableEq, Repr

/-- The mutable state a run threads: both catalog stores plus the report. -/
structure SyncState where
  web : WebflowState
  alg : List AlgoliaItem
  rep : Report
deriving DecidableEq, Repr

/-- A store call, as an event.  The failure oracle is keyed by these. -/
inductive Ev where
  | webflowCreate : FieldData → Ev
  | webflowUpdate : Nat → FieldData → Ev
  | webflowDelete : Nat → Ev
  | algoliaCreate : AlgoliaItem → Ev
  | algoliaUpdate : AlgoliaItem → Ev
  | algoliaDelete : String → Ev
deriving DecidableEq, Repr

/-- An event of the whole run: a `processPlugin` invocation, an inter-batch
delay (`sleep(DELAY_MS)`), or a store call. -/
inductive RunEv where
  | process : ManifestEntry → RunEv
  | delay : RunEv
  | store : Ev → RunEv
deriving DecidableEq, Repr

/-- `BATCH_SIZE = 5` from `sync-plugins.js`. -/
def BATCH_SIZE : Nat := 5

/-- `DELAY_MS = 2000` from `sync-plugins.js` (first variant). -/
def DELAY_MS : Nat := 2000

/-- Modelled from the spec: `create-item(collectionId, fieldData)` of the
content-collection store appends a new item under a fresh store-assigned id. -/
def createWebflowItem (fd : FieldData) (w : WebflowState) : WebflowState :=
  ⟨w.items ++ [⟨w.nextId, fd⟩], w.nextId + 1⟩

/-- Modelled from the spec: `update-item(collectionId, itemId, fieldData)`
replaces the field data of the item with the given id. -/
def updateWebflowItem (id : Nat) (fd : FieldData) (w : WebflowState) : WebflowState :=
  ⟨w.items.map (fun it => if it.id = id then ⟨it.id, fd⟩ else it), w.nextId⟩

/-- Modelled from the spec: `delete-item(collectionId, itemId)` removes the
item with the given id. -/
def deleteWebflowItem (id : Nat) (w : WebflowState) : WebflowState :=
  ⟨w.items.filter (fun it => it.id ≠ id), w.nextId⟩

/-- Modelled from the spec: `create-item(item)` of the search-index store. -/
def createAlgoliaItem (it : AlgoliaItem) (a : List AlgoliaItem) : List AlgoliaItem :=
  a ++ [it]

/-- Modelled from the spec: `update-item(item)` of the search-index store
replaces the record with the same `objectID`. -/
def updateAlgoliaItem (it : AlgoliaItem) (a : List AlgoliaItem) : List AlgoliaItem :=
  a.map (fun x => if x.objectID = it.objectID then it else x)

/-- Modelled from the spec: `delete-item(objectID)` of the search-index
store. -/
def deleteAlgoliaItem (oid : String) (a : List AlgoliaItem) : List AlgoliaItem :=
  a.filter (fun x => x.objectID ≠ oid)

/-- Modelled from the spec: `findPluginByName` from the missing `utils.js`,
applied to the Webflow item list — linear lookup of a catalog record by
`fieldData.name` (name is the join key). -/
def findPluginByName (items : List WebflowItem) (n : String) : Option WebflowItem :=
  items.find? (fun it => it.fieldData.name == n)

/-- Modelled from the spec: `findPluginByName` from the missing `utils.js`,
applied to the manifest list (orphan pass) — linear lookup of a manifest
entry by `name`. -/
def findManifestByName (ms : List ManifestEntry) (n : String) : Option ManifestEntry :=
  ms.find? (fun g => g.name == n)

/-- JavaScript `path.basename(githubUrl)`: the last path segment, ignoring
trailing slashes. -/
def basename (s : String) : String :=
  ⟨(((s.data.reverse.dropWhile (fun c => c = '/')).takeWhile (fun c => c ≠ '/'))).reverse⟩

/-- JavaScript truthiness of the fetched README content: `if (!content)`
treats both an absent property and the empty string as "no content". -/
def contentOf (readme : Option String) : Option String :=
  match readme with
  | none => none
  | some c => if c = "" then none else some c

/-- JavaScript value of `status && status === 'active'`: the falsy value of
`status` itself when `status` is absent or empty, otherwise the boolean
comparison result. -/
def jsActive : Option String → JsVal
  | none => JsVal.undef
  | some s => if s = "" then JsVal.str "" else JsVal.bool (s == "active")

/-- `npmDownloads || 0`. -/
def downloadsOf (e : Enrichment) : Nat := e.npmDownloads.getD 0

/-- `githubStars || 0` after `repoInfo || {}`. -/
def starsOf (e : Enrichment) : Nat :=
  match e.repoInfo with
  | none => 0
  | some ri => ri.githubStars.getD 0

/-- The Webflow `fieldData` object assembled in `processPlugin`;
`ft` stands for `formatTitle` from the missing `utils.js`, kept as a
parameter since the spec does not constrain it. -/
def mkFieldData (ft : String → String) (g : ManifestEntry) (slug content : String)
    (e : Enrichment) : FieldData :=
  { name := g.name
    title := ft g.name
    slug := slug
    description := g.description
    github := g.githubUrl
    content := content
    npmDownloads := downloadsOf e
    githubStars := starsOf e
    authorLink := e.repoInfo.bind (fun ri => ri.authorLink)
    authorName := e.repoInfo.bind (fun ri => ri.authorName)
    authorAvatar := e.repoInfo.bind (fun ri => ri.authorAvatar)
    active := jsActive g.status }

/-- The `algoliaItem` object assembled in `processPlugin`. -/
def mkAlgoliaItem (g : ManifestEntry) (slug : String) (e : Enrichment) : AlgoliaItem :=
  { objectID := slug
    name := g.name
    description := g.description
    githubUrl := g.githubUrl
    npmDownloads := downloadsOf e
    githubStars := starsOf e
    authorLink := e.repoInfo.bind (fun ri => ri.authorLink)
    authorName := e.repoInfo.bind (fun ri => ri.authorName)
    authorAvatar := e.repoInfo.bind (fun ri => ri.authorAvatar) }

/-- Modelled from the spec: `isPluginEqual` from the missing `utils.js`.  Per
the spec's equality check for the update-skip, two representations are equal
iff every tracked field (name, description, github URL, status-derived active
flag, and README content) matches byte-for-byte; enrichment-derived numeric
fields are excluded.  At the call site the result is bound to `hasChanged`
and an update is performed exactly when it is `true`, so the function returns
whether the entry's derived target fields differ from the stored field set. -/
def isPluginEqual (g : ManifestEntry) (stored : FieldData) (content : String) : Bool :=
  !(g.name == stored.name && g.description == stored.description &&
    g.githubUrl == stored.github && jsActive g.status == stored.active &&
    content == stored.content)

/-- The reason string pushed by `processPlugin`'s catch handler:
`Webflow or Algolia error: ${getErrorMessage(err)}`; `getErrorMessage` (from
the missing `utils.js`) is modelled from the spec as yielding the error's
message. -/
def errReason (msg : String) : String := "Webflow or Algolia error: " ++ msg

/-- `processDeletePlugin(webflowPlugin)`: deletes the item from Webflow then
from Algolia (by slug) and records the name as deleted; any exception is
caught and only logged — neither `deletedPlugins` nor `failedPlugins` is
touched on failure.  Returns the new state and the trace of attempted store
calls. -/
def processDeletePlugin (fail : Ev → Option String) (wp : WebflowItem)
    (s : SyncState) : SyncState × List Ev :=
  match fail (Ev.webflowDelete wp.id) with
  | some _ => (s, [Ev.webflowDelete wp.id])
  | none =>
    let s1 : SyncState := { s with web := deleteWebflowItem wp.id s.web }
    match fail (Ev.algoliaDelete wp.fieldData.slug) with
    | some _ => (s1, [Ev.webflowDelete wp.id, Ev.algoliaDelete wp.fieldData.slug])
    | none =>
      ({ s1 with
          alg := deleteAlgoliaItem wp.fieldData.slug s1.alg
          rep := { s1.rep with deleted := s1.rep.deleted ++ [wp.fieldData.name] } },
       [Ev.webflowDelete wp.id, Ev.algoliaDelete wp.fieldData.slug])

/-- `processPlugin(githubPlugin, webflowPlugins, webflowPluginIds)` without
the dead `webflowPluginIds` parameter (see the refinement theorem for the
version threading the set).  `fail` decides which store calls throw, `enrich`
is the result of the three enrichment providers, `ft` is `formatTitle`.
Returns the new state and the trace of attempted store calls. -/
def processPlugin (fail : Ev → Option String) (enrich : ManifestEntry → Enrichment)
    (ft : String → String) (webflowPlugins : List WebflowItem)
    (g : ManifestEntry) (s : SyncState) : SyncState × List Ev :=
  let webflowPlugin := findPluginByName webflowPlugins g.name
  let slug := basename g.githubUrl
  let e := enrich g
  match contentOf e.readme with
  | none =>
    let s1 : SyncState :=
      { s with rep := { s.rep with
          failed := s.rep.failed ++ [(g.name, "No README content found")] } }
    match webflowPlugin with
    | some wp => processDeletePlugin fail wp s1
    | none => (s1, [])
  | some content =>
    let fd := mkFieldData ft g slug content e
    let ai := mkAlgoliaItem g slug e
    match webflowPlugin with
    | some wp =>
      if isPluginEqual g wp.fieldData content then
        match fail (Ev.webflowUpdate wp.id fd) with
        | some msg =>
          ({ s with rep := { s.rep with
              failed := s.rep.failed ++ [(g.name, errReason msg)] } },
           [Ev.webflowUpdate wp.id fd])
        | none =>
          let s1 : SyncState := { s with web := updateWebflowItem wp.id fd s.web }
          match fail (Ev.algoliaUpdate ai) with
          | some msg =>
            ({ s1 with rep := { s1.rep with
                failed := s1.rep.failed ++ [(g.name, errReason msg)] } },
             [Ev.webflowUpdate wp.id fd, Ev.algoliaUpdate ai])
          | none =>
            ({ s1 with
                alg := updateAlgoliaItem ai s1.alg
                rep := { s1.rep with updated := s1.rep.updated ++ [g.name] } },
             [Ev.webflowUpdate wp.id fd, Ev.algoliaUpdate ai])
      else (s, [])
    | none =>
      match fail (Ev.webflowCreate fd) with
      | some msg =>
        ({ s with rep := { s.rep with
            failed := s.rep.failed ++ [(g.name, errReason msg)] } },
         [Ev.webflowCreate fd])
      | none =>
        let s1 : SyncState := { s with web := createWebflowItem fd s.web }
        match fail (Ev.algoliaCreate ai) with
        | some msg =>
          ({ s1 with rep := { s1.rep with
              failed := s1.rep.failed ++ [(g.name, errReason msg)] } },
           [Ev.webflowCreate fd, Ev.algoliaCreate ai])
        | none =>
          ({ s1 with
              alg := createAlgoliaItem ai s1.alg
              rep := { s1.rep with created := s1.rep.created ++ [g.name] } },
           [Ev.webflowCreate fd, Ev.algoliaCreate ai])

/-- One batch: `batch.map(processPlugin)` under `Promise.all`.  Entries of a
batch settle in an unspecified relative order; the model serialises them in
manifest order, which is observation-equivalent for the properties proved
here (all decisions read the fixed snapshot).  Emits a `process` event when
`processPlugin` is invoked, followed by the store calls it makes. -/
def runChunk (step : ManifestEntry → SyncState → SyncState × List Ev) :
    List ManifestEntry → SyncState → SyncState × List RunEv
  | [], s => (s, [])
  | g :: gs, s =>
    let p := step g s
    let q := runChunk step gs p.1
    (q.1, (RunEv.process g :: p.2.map RunEv.store) ++ q.2)

/-- The scheduler loop of `syncPlugins`:
`for (let i = 0; i < githubPlugins.length; i += BATCH_SIZE)` — slice a batch,
await all of it, and `sleep(DELAY_MS)` when `i + BATCH_SIZE < length`. -/
def runBatches (step : ManifestEntry → SyncState → SyncState × List Ev)
    (m : List ManifestEntry) (s : SyncState) : SyncState × List RunEv :=
  if h : m = [] then (s, [])
  else
    let p := runChunk step (m.take BATCH_SIZE) s
    let q := runBatches step (m.drop BATCH_SIZE) p.1
    (q.1, p.2 ++ (if BATCH_SIZE < m.length then [RunEv.delay] else []) ++ q.2)
termination_by m.length
decreasing_by
  have hl : m.length ≠ 0 := fun hl => h (List.eq_nil_of_length_eq_zero hl)
  simp only [List.length_drop, BATCH_SIZE]
  omega

/-- The orphan-deletion pass of `syncPlugins`: for each listed Webflow plugin
whose `fieldData.name` has no manifest entry, run `processDeletePlugin`. -/
def orphanPass (fail : Ev → Option String) (manifest : List ManifestEntry) :
    List WebflowItem → SyncState → SyncState × List Ev
  | [], s => (s, [])
  | wp :: rest, s =>
    match findManifestByName manifest wp.fieldData.name with
    | some _ => orphanPass fail manifest rest s
    | none =>
      let p := processDeletePlugin fail wp s
      let q := orphanPass fail manifest rest p.1
      (q.1, p.2 ++ q.2)

/-- The empty report each run starts from. -/
def emptyReport : Report := ⟨[], [], [], []⟩

/-- One full `syncPlugins()` run: snapshot the Webflow listing, run the
batched per-entry processing against the snapshot, then the sequential
orphan-deletion pass over the same snapshot.  The Algolia listing is only
counted for logging and does not influence any decision. -/
def syncRun (fail : Ev → Option String) (enrich : ManifestEntry → Enrichment)
    (ft : String → String) (manifest : List ManifestEntry)
    (web0 : WebflowState) (alg0 : List AlgoliaItem) : SyncState × List RunEv :=
  let snapshot := web0.items
  let p := runBatches (processPlugin fail enrich ft snapshot) manifest
    ⟨web0, alg0, emptyReport⟩
  let q := orphanPass fail manifest snapshot p.1
  (q.1, p.2 ++ q.2.map RunEv.store)

/-- The oracle of a run in which no store call throws. -/
def noFail : Ev → Option String := fun _ => none

/-- JavaScript `Set.prototype.delete`, on the set modelled as a list of
values. -/
def setDelete (xs : List JsVal) (k : JsVal) : List JsVal :=
  xs.filter (fun x => x ≠ k)

/-- `githubPlugin.id`: a manifest entry has no `id` property, so the access
yields `undefined`. -/
def jsId (_ : ManifestEntry) : JsVal := JsVal.undef

/-- `plugin.name` on a listed Webflow item: the name lives under `fieldData`,
so the top-level access yields `undefined`. -/
def jsTopName (_ : WebflowItem) : JsVal := JsVal.undef

/-- `processPlugin` verbatim, additionally threading the `webflowPluginIds`
set: `webflowPluginIds.delete(githubPlugin.id)` runs at the end of the `try`
block (create, update and skip paths), and is skipped on the no-content
`return` and when an exception jumps to the catch handler. -/
def processPluginIds (fail : Ev → Option String) (enrich : ManifestEntry → Enrichment)
    (ft : String → String) (webflowPlugins : List WebflowItem)
    (g : ManifestEntry) (s : SyncState) (ids : List JsVal) :
    (SyncState × List Ev) × List JsVal :=
  let webflowPlugin := findPluginByName webflowPlugins g.name
  let slug := basename g.githubUrl
  let e := enrich g
  match contentOf e.readme with
  | none =>
    let s1 : SyncState :=
      { s with rep := { s.rep with
          failed := s.rep.failed ++ [(g.name, "No README content found")] } }
    match webflowPlugin with
    | some wp => (processDeletePlugin fail wp s1, ids)
    | none => ((s1, []), ids)
  | some content =>
    let fd := mkFieldData ft g slug content e
    let ai := mkAlgoliaItem g slug e
    match webflowPlugin with
    | some wp =>
      if isPluginEqual g wp.fieldData content then
        match fail (Ev.webflowUpdate wp.id fd) with
        | some msg =>
          (({ s with rep := { s.rep with
              failed := s.rep.failed ++ [(g.name, errReason msg)] } },
            [Ev.webflowUpdate wp.id fd]), ids)
        | none =>
          let s1 : SyncState := { s with web := updateWebflowItem wp.id fd s.web }
          match fail (Ev.algoliaUpdate ai) with
          | some msg =>
            (({ s1 with rep := { s1.rep with
                failed := s1.rep.failed ++ [(g.name, errReason msg)] } },
              [Ev.webflowUpdate wp.id fd, Ev.algoliaUpdate ai]), ids)
          | none =>
            (({ s1 with
                alg := updateAlgoliaItem ai s1.alg
                rep := { s1.rep with updated := s1.rep.updated ++ [g.name] } },
              [Ev.webflowUpdate wp.id fd, Ev.algoliaUpdate ai]),
             setDelete ids (jsId g))
      else ((s, []), setDelete ids (jsId g))
    | none =>
      match fail (Ev.webflowCreate fd) with
      | some msg =>
        (({ s with rep := { s.rep with
            failed := s.rep.failed ++ [(g.name, errReason msg)] } },
          [Ev.webflowCreate fd]), ids)
      | none =>
        let s1 : SyncState := { s with web := createWebflowItem fd s.web }
        match fail (Ev.algoliaCreate ai) with
        | some msg =>
          (({ s1 with rep := { s1.rep with
              failed := s1.rep.failed ++ [(g.name, errReason msg)] } },
            [Ev.webflowCreate fd, Ev.algoliaCreate ai]), ids)
        | none =>
          (({ s1 with
              alg := createAlgoliaItem ai s1.alg
              rep := { s1.rep with created := s1.rep.created ++ [g.name] } },
            [Ev.webflowCreate fd, Ev.algoliaCreate ai]),
           setDelete ids (jsId g))

/-- `runChunk` for the set-threading variant. -/
def runChunkIds
    (step : ManifestEntry → SyncState → List JsVal → (SyncState × List Ev) × List JsVal) :
    List ManifestEntry → SyncState → List JsVal → (SyncState × List RunEv) × List JsVal
  | [], s, ids => ((s, []), ids)
  | g :: gs, s, ids =>
    let p := step g s ids
    let q := runChunkIds step gs p.1.1 p.2
    ((q.1.1, (RunEv.process g :: p.1.2.map RunEv.store) ++ q.1.2), q.2)

/-- `runBatches` for the set-threading variant. -/
def runBatchesIds
    (step : ManifestEntry → SyncState → List JsVal → (SyncState × List Ev) × List JsVal)
    (m : List ManifestEntry) (s : SyncState) (ids : List JsVal) :
    (SyncState × List RunEv) × List JsVal :=
  if h : m = [] then ((s, []), ids)
  else
    let p := runChunkIds step (m.take BATCH_SIZE) s ids
    let q := runBatchesIds step (m.drop BATCH_SIZE) p.1.1 p.2
    ((q.1.1, p.1.2 ++ (if BATCH_SIZE < m.length then [RunEv.delay] else []) ++ q.1.2), q.2)
termination_by m.length
decreasing_by
  have hl : m.length ≠ 0 := fun hl => h (List.eq_nil_of_length_eq_zero hl)
  simp only [List.length_drop, BATCH_SIZE]
  omega

/-- One full `syncPlugins()` run, as written: the `webflowPluginIds` set is
built from the listing (`new Set(webflowPlugins.map((plugin) => plugin.name))`)
and threaded through the batch loop; it is dropped when `syncPlugins`
returns. -/
def syncRunIds (fail : Ev → Option String) (enrich : ManifestEntry → Enrichment)
    (ft : String → String) (manifest : List ManifestEntry)
    (web0 : WebflowState) (alg0 : List AlgoliaItem) : SyncState × List RunEv :=
  let snapshot := web0.items
  let ids0 := snapshot.map jsTopName
  let p := runBatchesIds (processPluginIds fail enrich ft snapshot) manifest
    ⟨web0, alg0, emptyReport⟩ ids0
  let q := orphanPass fail manifest snapshot p.1.1
  (q.1, p.1.2 ++ q.2.map RunEv.store)

/-! ### Derived descriptions used in theorem statements and proofs -/

/-- Whether `needle` occurs as a contiguous segment of `hay` (used to state
that a reason string contains an error message). -/
def hasSub : List Char → List Char → Bool
  | _, [] => true
  | [], _ :: _ => false
  | h :: t, n :: m => ((n :: m).isPrefixOf (h :: t)) || hasSub t (n :: m)

/-- The meaningful fields over which the update-skip equality check compares
the assembled target field set with the stored one: name, description,
github URL, status-derived active flag, and README content. -/
def trackedFields (fd : FieldData) : String × String × String × JsVal × String :=
  (fd.name, fd.description, fd.github, fd.active, fd.content)

/-- The manifest entries of a trace (one per `processPlugin` invocation). -/
def processedOf (t : List RunEv) : List ManifestEntry :=
  t.filterMap fun ev => match ev with
    | RunEv.process g => some g
    | _ => none

/-- Number of inter-batch delays in a trace. -/
def delayCount (t : List RunEv) : Nat :=
  (t.filter fun ev => match ev with
    | RunEv.delay => true
    | _ => false).length

/-- Helper for `ordOk`: scans a store-call trace remembering whether a
content-store create (`wc`) or update (`wu`) has already been issued. -/
def ordOkGo : Bool → Bool → List Ev → Bool
  | _, _, [] => true
  | wc, wu, Ev.algoliaCreate _ :: r => wc && ordOkGo wc wu r
  | wc, wu, Ev.algoliaUpdate _ :: r => wu && ordOkGo wc wu r
  | _, wu, Ev.webflowCreate _ :: r => ordOkGo true wu r
  | wc, _, Ev.webflowUpdate _ _ :: r => ordOkGo wc true r
  | wc, wu, _ :: r => ordOkGo wc wu r

/-- A store-call trace is well ordered when every search-index create is
preceded by a content-store create, and every search-index update by a
content-store update. -/
def ordOk (t : List Ev) : Bool := ordOkGo false false t

/-- Whether processing `g` takes the create path (content present, no
existing record in the snapshot). -/
def createsEntry (enrich : ManifestEntry → Enrichment) (snapshot : List WebflowItem)
    (g : ManifestEntry) : Bool :=
  (contentOf (enrich g).readme).isSome && (findPluginByName snapshot g.name).isNone

/-- Whether processing `g` takes the update path (content present, existing
record found, tracked fields differ). -/
def updatesEntry (enrich : ManifestEntry → Enrichment) (snapshot : List WebflowItem)
    (g : ManifestEntry) : Bool :=
  match contentOf (enrich g).readme, findPluginByName snapshot g.name with
  | some c, some wp => isPluginEqual g wp.fieldData c
  | _, _ => false

/-- Names a single entry contributes to `createdPlugins` in a run with no
store failures. -/
def createdDelta (enrich : ManifestEntry → Enrichment) (snapshot : List WebflowItem)
    (g : ManifestEntry) : List String :=
  if createsEntry enrich snapshot g then [g.name] else []

/-- Names a single entry contributes to `updatedPlugins` in a run with no
store failures. -/
def updatedDelta (enrich : ManifestEntry → Enrichment) (snapshot : List WebflowItem)
    (g : ManifestEntry) : List String :=
  if updatesEntry enrich snapshot g then [g.name] else []

/-- Names a single entry contributes to `deletedPlugins` (no-content
deletion) in a run with no store failures. -/
def deletedDelta (enrich : ManifestEntry → Enrichment) (snapshot : List WebflowItem)
    (g : ManifestEntry) : List String :=
  match contentOf (enrich g).readme with
  | none => ((findPluginByName snapshot g.name).map (fun wp => wp.fieldData.name)).toList
  | some _ => []

/-- Pairs a single entry contributes to `failedPlugins` in a run with no
store failures. -/
def failedDelta (enrich : ManifestEntry → Enrichment)
    (g : ManifestEntry) : List (String × String) :=
  match contentOf (enrich g).readme with
  | none => [(g.name, "No README content found")]
  | some _ => []

/-- Names the orphan pass appends to `deletedPlugins` when no store call
fails, in snapshot order. -/
def orphanDeleted (manifest : List ManifestEntry) (rest : List WebflowItem) : List String :=
  (rest.filter fun wp => (findManifestByName manifest wp.fieldData.name).isNone).map
    (fun wp => wp.fieldData.name)

/-- Ids of the snapshot items the orphan pass deletes. -/
def orphanIds (manifest : List ManifestEntry) (rest : List WebflowItem) : List Nat :=
  (rest.filter fun wp => (findManifestByName manifest wp.fieldData.name).isNone).map
    (fun wp => wp.id)

/-- Slugs of the snapshot items the orphan pass deletes from the index. -/
def orphanSlugs (manifest : List ManifestEntry) (rest : List WebflowItem) : List String :=
  (rest.filter fun wp => (findManifestByName manifest wp.fieldData.name).isNone).map
    (fun wp => wp.fieldData.slug)

/-- The fate of one snapshot item under the batched pass over a manifest
prefix `P` (run without store failures): untouched when no entry of `P`
matches its name; deleted when the matching entry has no content; replaced
by the freshly assembled field data when the tracked fields differ; kept
as-is otherwise. -/
def fateOne (enrich : ManifestEntry → Enrichment) (ft : String → String)
    (P : List ManifestEntry) (it : WebflowItem) : Option WebflowItem :=
  match findManifestByName P it.fieldData.name with
  | none => some it
  | some g =>
    match contentOf (enrich g).readme with
    | none => none
    | some c =>
      if isPluginEqual g it.fieldData c
      then some ⟨it.id, mkFieldData ft g (basename g.githubUrl) c (enrich g)⟩
      else some it

/-- The field data of the items the batched pass creates (content present,
no record in the snapshot), in manifest order. -/
def createsSpec (enrich : ManifestEntry → Enrichment) (ft : String → String)
    (snapshot : List WebflowItem) (P : List ManifestEntry) : List FieldData :=
  P.filterMap fun g =>
    match contentOf (enrich g).readme, findPluginByName snapshot g.name with
    | some c, none => some (mkFieldData ft g (basename g.githubUrl) c (enrich g))
    | _, _ => none

/-- Attach consecutive store-assigned ids starting at `n`. -/
def withIds : Nat → List FieldData → List WebflowItem
  | _, [] => []
  | n, fd :: rest => ⟨n, fd⟩ :: withIds (n + 1) rest

/-- The items created by the batched pass over a manifest prefix, with the
store-assigned ids threading from `n`. -/
def createsList (enrich : ManifestEntry → Enrichment) (ft : String → String)
    (snapshot : List WebflowItem) (P : List ManifestEntry) (n : Nat) : List WebflowItem :=
  withIds n (createsSpec enrich ft snapshot P)

/-- The content-store item list after the batched pass has processed the
manifest prefix `P`, starting from snapshot `snapshot` and next id `n0`
(run without store failures). -/
def midItems (enrich : ManifestEntry → Enrichment) (ft : String → String)
    (snapshot : List WebflowItem) (n0 : Nat) (P : List ManifestEntry) : List WebflowItem :=
  snapshot.filterMap (fateOne enrich ft P) ++ createsList enrich ft snapshot P n0

/-- The content store's next id after the batched pass over prefix `P`. -/
def midNext (enrich : ManifestEntry → Enrichment) (ft : String → String)
    (snapshot : List WebflowItem) (n0 : Nat) (P : List ManifestEntry) : Nat :=
  n0 + (createsSpec enrich ft snapshot P).length

/-! ### Concrete inputs for witnesses and counterexamples -/

/-- A concrete manifest entry. -/
def gActive : ManifestEntry :=
  ⟨"plugin-a", "a plugin", "https://github.com/u/plugrepo", some "active"⟩

/-- A concrete manifest entry with no `status` property. -/
def gNoStatus : ManifestEntry :=
  ⟨"plugin-b", "b plugin", "https://github.com/u/plugin-b", none⟩

/-- An enrichment oracle that always finds README content `"R"` and nothing
else. -/
def enrR : ManifestEntry → Enrichment := fun _ => ⟨none, none, some "R"⟩

/-- An enrichment oracle that never finds README content. -/
def enrNone : ManifestEntry → Enrichment := fun _ => ⟨none, none, none⟩

/-- A concrete stored Webflow item whose field data matches `gActive`
enriched by `enrR` (id 7). -/
def wMatch : WebflowItem :=
  ⟨7, mkFieldData (fun s => s) gActive (basename gActive.githubUrl) "R" (enrR gActive)⟩

/-- A concrete stored Webflow item for `gActive` whose description differs
from the manifest (id 7). -/
def wStale : WebflowItem :=
  ⟨7, { mkFieldData (fun s => s) gActive (basename gActive.githubUrl) "R" (enrR gActive) with
        description := "older description" }⟩

/-- An empty starting state. -/
def st0 : SyncState := ⟨⟨[], 0⟩, [], emptyReport⟩

/-- A failure oracle that fails exactly the content-store delete calls, with
message `"boom"`. -/
def failDeleteW : Ev → Option String := fun e =>
  match e with
  | Ev.webflowDelete _ => some "boom"
  | _ => none

/-- A failure oracle that fails exactly the search-index delete calls, with
message `"boom"`. -/
def failDeleteA : Ev → Option String := fun e =>
  match e with
  | Ev.algoliaDelete _ => some "boom"
  | _ => none

/-- A failure oracle that fails exactly the content-store update calls, with
message `"boom"`. -/
def failUpdateW : Ev → Option String := fun e =>
  match e with
  | Ev.webflowUpdate _ _ => some "boom"
  | _ => none

/-! ### Helper lemmas -/

theorem isPluginEqual_mkFieldData (ft : String → String) (g : ManifestEntry)
    (slug c : String) (e : Enrichment) :
    isPluginEqual g (mkFieldData ft g slug c e) c = false := by
  simp [isPluginEqual, mkFieldData]

theorem isPluginEqual_false_iff (ft : String → String) (g : ManifestEntry)
    (slug c : String) (e : Enrichment) (stored : FieldData) :
    isPluginEqual g stored c = false ↔
      trackedFields (mkFieldData ft g slug c e) = trackedFields stored := by
  simp only [isPluginEqual, mkFieldData, trackedFields, Bool.not_eq_false',
    Bool.and_eq_true, beq_iff_eq, Prod.mk.injEq]
  tauto

/-! ### C8: the assembled `active` field -/

/-- C8 (amended): for every entry that reaches field-set assembly, the
assembled `active` field is `true` iff `status` is the string `'active'`;
for any other nonempty status string it is `false`; but when `status` is
absent it is `undefined`, and when it is the empty string it is the empty
string — the falsy value of `status` itself, not the boolean `false`. -/
theorem claim8_active_amended (ft : String → String) (g : ManifestEntry)
    (slug content : String) (e : Enrichment) :
    ((mkFieldData ft g slug content e).active = JsVal.bool true ↔
      g.status = some "active") ∧
    (∀ s, g.status = some s → s ≠ "" → s ≠ "active" →
      (mkFieldData ft g slug content e).active = JsVal.bool false) ∧
    (g.status = none → (mkFieldData ft g slug content e).active = JsVal.undef) ∧
    (g.status = some "" → (mkFieldData ft g slug content e).active = JsVal.str "") := by
  refine ⟨?_, ?_, ?_, ?_⟩
  · simp only [mkFieldData]
    cases g.status with
    | none => simp [jsActive]
    | some s =>
      by_cases he : s = ""
      · subst he; simp [jsActive]
      · simp [jsActive, he]
  · intro s hs he ha
    simp [mkFieldData, hs, jsActive, he, ha]
  · intro hs; simp [mkFieldData, hs, jsActive]
  · intro hs; simp [mkFieldData, hs, jsActive]

/-- C8 counterexample: a manifest entry with no `status` property reaches
assembly (content present, create path), its status is not `'active'`, yet
the assembled `active` field is `undefined`, not `false`. -/
theorem claim8_counterexample :
    (processPlugin noFail enrR (fun s => s) [] gNoStatus st0).1.web.items.map
        (fun it => it.fieldData.active) = [JsVal.undef] ∧
    JsVal.undef ≠ JsVal.bool false ∧ gNoStatus.status ≠ some "active" := by
  decide

/-- Witness for `claim8_active_amended` at a concrete input. -/
theorem claim8_witness :
    gNoStatus.status = none ∧
    (mkFieldData (fun s => s) gNoStatus "s" "c" (enrR gNoStatus)).active = JsVal.undef :=
  ⟨rfl, (claim8_active_amended (fun s => s) gNoStatus "s" "c" (enrR gNoStatus)).2.2.1 rfl⟩

/-! ### C10: failed deletions are absent from every report list -/

/-- C10: if a store call throws during `processDeletePlugin` (the deletion
path used by the no-content case and the orphan pass), the exception is
caught and the report is left untouched: the record's name is appended
neither to the deleted list nor to the failed list (nor any other list). -/
theorem claim10_failed_delete_unreported (fail : Ev → Option String)
    (wp : WebflowItem) (s : SyncState)
    (h : fail (Ev.webflowDelete wp.id) ≠ none ∨
      fail (Ev.algoliaDelete wp.fieldData.slug) ≠ none) :
    (processDeletePlugin fail wp s).1.rep = s.rep := by
  unfold processDeletePlugin
  cases h1 : fail (Ev.webflowDelete wp.id) with
  | some m => simp
  | none =>
    cases h2 : fail (Ev.algoliaDelete wp.fieldData.slug) with
    | some m => simp
    | none => rcases h with h | h <;> exact absurd (by assumption) h

/-- Witness for `claim10_failed_delete_unreported` at a concrete input. -/
theorem claim10_witness :
    (failDeleteW (Ev.webflowDelete wMatch.id) ≠ none ∨
      failDeleteW (Ev.algoliaDelete wMatch.fieldData.slug) ≠ none) ∧
    (processDeletePlugin failDeleteW wMatch st0).1.rep = st0.rep :=
  ⟨Or.inl (by decide),
   claim10_failed_delete_unreported failDeleteW wMatch st0 (Or.inl (by decide))⟩

/-! ### C7: content-store write precedes index write per entry -/

/-- C7: in the create path and in the update path of `processPlugin`, the
content-collection-store write always precedes the search-index write of the
same kind in the trace of attempted store calls; the index write never comes
first. -/
theorem claim7_store_write_order (fail : Ev → Option String)
    (enrich : ManifestEntry → Enrichment) (ft : String → String)
    (wbf : List WebflowItem) (g : ManifestEntry) (s : SyncState) :
    ordOk (processPlugin fail enrich ft wbf g s).2 = true := by
  unfold processPlugin processDeletePlugin
  dsimp only
  repeat' split
  all_goals rfl

/-! ### C1: update-or-skip against an existing record -/

/-- C1: for an entry with fetched README content and an existing catalog
record found by name, `processPlugin` compares the assembled target field
set against the stored one over the meaningful fields; when they are equal
it is a complete no-op (state unchanged, empty store-call trace, name in
neither `created` nor `updated`), and when they differ (and the calls
succeed) it updates both stores and appends the name to `updated` exactly
once. -/
theorem claim1_update_or_skip (fail : Ev → Option String)
    (enrich : ManifestEntry → Enrichment) (ft : String → String)
    (wbf : List WebflowItem) (g : ManifestEntry) (s : SyncState)
    (wp : WebflowItem) (c : String)
    (hc : contentOf (enrich g).readme = some c)
    (hf : findPluginByName wbf g.name = some wp) :
    (trackedFields (mkFieldData ft g (basename g.githubUrl) c (enrich g)) =
        trackedFields wp.fieldData →
      processPlugin fail enrich ft wbf g s = (s, [])) ∧
    (trackedFields (mkFieldData ft g (basename g.githubUrl) c (enrich g)) ≠
        trackedFields wp.fieldData →
      fail (Ev.webflowUpdate wp.id
        (mkFieldData ft g (basename g.githubUrl) c (enrich g))) = none →
      fail (Ev.algoliaUpdate (mkAlgoliaItem g (basename g.githubUrl) (enrich g))) = none →
      processPlugin fail enrich ft wbf g s =
        (⟨updateWebflowItem wp.id
            (mkFieldData ft g (basename g.githubUrl) c (enrich g)) s.web,
          updateAlgoliaItem (mkAlgoliaItem g (basename g.githubUrl) (enrich g)) s.alg,
          { s.rep with updated := s.rep.updated ++ [g.name] }⟩,
         [Ev.webflowUpdate wp.id (mkFieldData ft g (basename g.githubUrl) c (enrich g)),
          Ev.algoliaUpdate (mkAlgoliaItem g (basename g.githubUrl) (enrich g))])) := by
  have hiff := isPluginEqual_false_iff ft g (basename g.githubUrl) c (enrich g) wp.fieldData
  constructor
  · intro heq
    have hfalse : isPluginEqual g wp.fieldData c = false := hiff.mpr heq
    simp [processPlugin, hc, hf, hfalse]
  · intro hne h1 h2
    have htrue : isPluginEqual g wp.fieldData c = true := by
      cases hb : isPluginEqual g wp.fieldData c
      · exact absurd (hiff.mp hb) hne
      · rfl
    simp [processPlugin, hc, hf, htrue, h1, h2]

/-- Witness for `claim1_update_or_skip`: a stale stored description triggers
the update path at a concrete input. -/
theorem claim1_witness :
    contentOf (enrR gActive).readme = some "R" ∧
    findPluginByName [wStale] gActive.name = some wStale ∧
    processPlugin noFail enrR (fun s => s) [wStale] gActive st0 =
      (⟨updateWebflowItem wStale.id
          (mkFieldData (fun s => s) gActive (basename gActive.githubUrl) "R" (enrR gActive)) st0.web,
        updateAlgoliaItem (mkAlgoliaItem gActive (basename gActive.githubUrl) (enrR gActive)) st0.alg,
        { st0.rep with updated := st0.rep.updated ++ [gActive.name] }⟩,
       [Ev.webflowUpdate wStale.id
          (mkFieldData (fun s => s) gActive (basename gActive.githubUrl) "R" (enrR gActive)),
        Ev.algoliaUpdate (mkAlgoliaItem gActive (basename gActive.githubUrl) (enrR gActive))]) :=
  ⟨rfl, by decide,
   (claim1_update_or_skip noFail enrR (fun s => s) [wStale] gActive st0 wStale "R"
      rfl (by decide)).2 (by decide) rfl rfl⟩

/-! ### C2: absent README content -/

/-- C2: for an entry whose README fetch yields no (or empty) content,
`processPlugin` makes no create or update call (the trace holds delete
calls at most), records the entry in `failed` with the content-related
reason, and — when a catalog record exists under that name and the delete
calls succeed — deletes the record from both stores. -/
theorem claim2_no_content (fail : Ev → Option String)
    (enrich : ManifestEntry → Enrichment) (ft : String → String)
    (wbf : List WebflowItem) (g : ManifestEntry) (s : SyncState)
    (hc : contentOf (enrich g).readme = none) :
    (findPluginByName wbf g.name = none →
      processPlugin fail enrich ft wbf g s =
        ({ s with rep := { s.rep with
            failed := s.rep.failed ++ [(g.name, "No README content found")] } }, [])) ∧
    (∀ wp, findPluginByName wbf g.name = some wp →
      fail (Ev.webflowDelete wp.id) = none →
      fail (Ev.algoliaDelete wp.fieldData.slug) = none →
      processPlugin fail enrich ft wbf g s =
        (⟨deleteWebflowItem wp.id s.web,
          deleteAlgoliaItem wp.fieldData.slug s.alg,
          { s.rep with
              failed := s.rep.failed ++ [(g.name, "No README content found")],
              deleted := s.rep.deleted ++ [wp.fieldData.name] }⟩,
         [Ev.webflowDelete wp.id, Ev.algoliaDelete wp.fieldData.slug])) := by
  constructor
  · intro hf
    simp [processPlugin, hc, hf]
  · intro wp hf h1 h2
    simp [processPlugin, processDeletePlugin, hc, hf, h1, h2]

/-- Witness for `claim2_no_content`: content absent with an existing record
at a concrete input. -/
theorem claim2_witness :
    contentOf (enrNone gActive).readme = none ∧
    findPluginByName [wMatch] gActive.name = some wMatch ∧
    processPlugin noFail enrNone (fun s => s) [wMatch]
        gActive ⟨⟨[wMatch], 8⟩, [], emptyReport⟩ =
      (⟨deleteWebflowItem wMatch.id (⟨[wMatch], 8⟩ : WebflowState),
        deleteAlgoliaItem wMatch.fieldData.slug [],
        { emptyReport with
            failed := emptyReport.failed ++ [(gActive.name, "No README content found")],
            deleted := emptyReport.deleted ++ [wMatch.fieldData.name] }⟩,
       [Ev.webflowDelete wMatch.id, Ev.algoliaDelete wMatch.fieldData.slug]) :=
  ⟨rfl, by decide,
   (claim2_no_content noFail enrNone (fun s => s) [wMatch] gActive
      ⟨⟨[wMatch], 8⟩, [], emptyReport⟩ rfl).2 wMatch (by decide) rfl rfl⟩

/-! ### Scheduler equation lemmas -/

theorem runBatches_nil (step : ManifestEntry → SyncState → SyncState × List Ev)
    (s : SyncState) : runBatches step [] s = (s, []) := by
  rw [runBatches]; simp

theorem runBatches_cons (step : ManifestEntry → SyncState → SyncState × List Ev)
    (m : List ManifestEntry) (s : SyncState) (hm : m ≠ []) :
    runBatches step m s =
      ((runBatches step (m.drop BATCH_SIZE) (runChunk step (m.take BATCH_SIZE) s).1).1,
       (runChunk step (m.take BATCH_SIZE) s).2 ++
         (if BATCH_SIZE < m.length then [RunEv.delay] else []) ++
         (runBatches step (m.drop BATCH_SIZE) (runChunk step (m.take BATCH_SIZE) s).1).2) := by
  rw [runBatches]; simp [hm]

theorem runBatchesIds_nil
    (stepI : ManifestEntry → SyncState → List JsVal → (SyncState × List Ev) × List JsVal)
    (s : SyncState) (ids : List JsVal) : runBatchesIds stepI [] s ids = ((s, []), ids) := by
  rw [runBatchesIds]; simp

theorem runBatchesIds_cons
    (stepI : ManifestEntry → SyncState → List JsVal → (SyncState × List Ev) × List JsVal)
    (m : List ManifestEntry) (s : SyncState) (ids : List JsVal) (hm : m ≠ []) :
    runBatchesIds stepI m s ids =
      (((runBatchesIds stepI (m.drop BATCH_SIZE)
          (runChunkIds stepI (m.take BATCH_SIZE) s ids).1.1
          (runChunkIds stepI (m.take BATCH_SIZE) s ids).2).1.1,
        (runChunkIds stepI (m.take BATCH_SIZE) s ids).1.2 ++
          (if BATCH_SIZE < m.length then [RunEv.delay] else []) ++
          (runBatchesIds stepI (m.drop BATCH_SIZE)
            (runChunkIds stepI (m.take BATCH_SIZE) s ids).1.1
            (runChunkIds stepI (m.take BATCH_SIZE) s ids).2).1.2),
       (runBatchesIds stepI (m.drop BATCH_SIZE)
          (runChunkIds stepI (m.take BATCH_SIZE) s ids).1.1
          (runChunkIds stepI (m.take BATCH_SIZE) s ids).2).2) := by
  rw [runBatchesIds]; simp [hm]

/-! ### C9: the `webflowPluginIds` set is dead -/

theorem processPluginIds_fst (fail : Ev → Option String)
    (enrich : ManifestEntry → Enrichment) (ft : String → String)
    (wbf : List WebflowItem) (g : ManifestEntry) (s : SyncState) (ids : List JsVal) :
    (processPluginIds fail enrich ft wbf g s ids).1 =
      processPlugin fail enrich ft wbf g s := by
  unfold processPluginIds processPlugin
  dsimp only
  repeat' split
  all_goals rfl

theorem runChunkIds_fst
    (stepI : ManifestEntry → SyncState → List JsVal → (SyncState × List Ev) × List JsVal)
    (step : ManifestEntry → SyncState → SyncState × List Ev)
    (hstep : ∀ g s ids, (stepI g s ids).1 = step g s) :
    ∀ (gs : List ManifestEntry) (s : SyncState) (ids : List JsVal),
      (runChunkIds stepI gs s ids).1 = runChunk step gs s := by
  intro gs
  induction gs with
  | nil => intro s ids; rfl
  | cons g gs ih =>
    intro s ids
    simp only [runChunkIds, runChunk]
    rw [hstep g s ids, ih]

theorem runBatchesIds_fst
    (stepI : ManifestEntry → SyncState → List JsVal → (SyncState × List Ev) × List JsVal)
    (step : ManifestEntry → SyncState → SyncState × List Ev)
    (hstep : ∀ g s ids, (stepI g s ids).1 = step g s) :
    ∀ (m : List ManifestEntry) (s : SyncState) (ids : List JsVal),
      (runBatchesIds stepI m s ids).1 = runBatches step m s := by
  suffices h : ∀ (n : Nat) (m : List ManifestEntry) (s : SyncState) (ids : List JsVal),
      m.length ≤ n → (runBatchesIds stepI m s ids).1 = runBatches step m s by
    intro m s ids
    exact h m.length m s ids le_rfl
  intro n
  induction n with
  | zero =>
    intro m s ids hle
    have hm : m = [] := List.eq_nil_of_length_eq_zero (Nat.le_zero.mp hle)
    subst hm
    rw [runBatchesIds_nil, runBatches_nil]
  | succ n ih =>
    intro m s ids hle
    by_cases hm : m = []
    · subst hm
      rw [runBatchesIds_nil, runBatches_nil]
    · rw [runBatchesIds_cons stepI m s ids hm, runBatches_cons step m s hm]
      have hck := runChunkIds_fst stepI step hstep (m.take BATCH_SIZE) s ids
      have hdrop : (m.drop BATCH_SIZE).length ≤ n := by
        have h1 : 1 ≤ m.length := List.length_pos.mpr hm
        simp only [List.length_drop, BATCH_SIZE]
        omega
      have hq := ih (m.drop BATCH_SIZE)
        (runChunkIds stepI (m.take BATCH_SIZE) s ids).1.1
        (runChunkIds stepI (m.take BATCH_SIZE) s ids).2 hdrop
      rw [hck] at hq ⊢
      rw [hq]

/-- C9: the `webflowPluginIds` set built in `syncPlugins` is never read: the
full run with the set threaded through (`syncRunIds`, faithful to the source
including `webflowPluginIds.delete(githubPlugin.id)`) is observably equal to
the run with the set and all its operations removed, and the batch loop's
outcome does not depend on the set's contents. -/
theorem claim9_ids_set_dead (fail : Ev → Option String)
    (enrich : ManifestEntry → Enrichment) (ft : String → String)
    (manifest : List ManifestEntry) (web0 : WebflowState) (alg0 : List AlgoliaItem) :
    syncRunIds fail enrich ft manifest web0 alg0 =
      syncRun fail enrich ft manifest web0 alg0 ∧
    (∀ (s : SyncState) (ids1 ids2 : List JsVal),
      (runBatchesIds (processPluginIds fail enrich ft web0.items) manifest s ids1).1 =
      (runBatchesIds (processPluginIds fail enrich ft web0.items) manifest s ids2).1) := by
  have hb := runBatchesIds_fst (processPluginIds fail enrich ft web0.items)
    (processPlugin fail enrich ft web0.items)
    (fun g s ids => processPluginIds_fst fail enrich ft web0.items g s ids)
  constructor
  · unfold syncRunIds syncRun
    dsimp only
    rw [hb]
  · intro s ids1 ids2
    rw [hb, hb]

/-! ### C4: batch formation and delays -/

theorem processedOf_append (t1 t2 : List RunEv) :
    processedOf (t1 ++ t2) = processedOf t1 ++ processedOf t2 := by
  simp [processedOf]

theorem processedOf_cons_process (g : ManifestEntry) (t : List RunEv) :
    processedOf (RunEv.process g :: t) = g :: processedOf t := by
  simp [processedOf]

theorem processedOf_cons_store (e : Ev) (t : List RunEv) :
    processedOf (RunEv.store e :: t) = processedOf t := by
  simp [processedOf]

theorem processedOf_store_map (evs : List Ev) :
    processedOf (evs.map RunEv.store) = [] := by
  induction evs with
  | nil => rfl
  | cons e r ih => rw [List.map_cons, processedOf_cons_store, ih]

theorem delayCount_append (t1 t2 : List RunEv) :
    delayCount (t1 ++ t2) = delayCount t1 + delayCount t2 := by
  simp [delayCount]

theorem delayCount_cons_process (g : ManifestEntry) (t : List RunEv) :
    delayCount (RunEv.process g :: t) = delayCount t := by
  simp [delayCount]

theorem delayCount_cons_store (e : Ev) (t : List RunEv) :
    delayCount (RunEv.store e :: t) = delayCount t := by
  simp [delayCount]

theorem delayCount_store_map (evs : List Ev) :
    delayCount (evs.map RunEv.store) = 0 := by
  induction evs with
  | nil => rfl
  | cons e r ih => rw [List.map_cons, delayCount_cons_store, ih]

theorem runChunk_processedOf (step : ManifestEntry → SyncState → SyncState × List Ev) :
    ∀ (gs : List ManifestEntry) (s : SyncState),
      processedOf (runChunk step gs s).2 = gs := by
  intro gs
  induction gs with
  | nil => intro s; rfl
  | cons g gs ih =>
    intro s
    simp only [runChunk, List.cons_append]
    rw [processedOf_cons_process, processedOf_append, processedOf_store_map, ih]
    rfl

theorem runChunk_delayCount (step : ManifestEntry → SyncState → SyncState × List Ev) :
    ∀ (gs : List ManifestEntry) (s : SyncState),
      delayCount (runChunk step gs s).2 = 0 := by
  intro gs
  induction gs with
  | nil => intro s; rfl
  | cons g gs ih =>
    intro s
    simp only [runChunk, List.cons_append]
    rw [delayCount_cons_process, delayCount_append, delayCount_store_map, ih]

/-- C4: for a 12-entry manifest the scheduler loop of `syncPlugins` forms
exactly three contiguous batches of sizes 5, 5 and 2 in manifest order,
inserts exactly two inter-batch delays — one after each non-final batch and
none after the final one — and passes every one of the 12 entries to
`processPlugin` exactly once, whatever the failure oracle does. -/
theorem claim4_batching (fail : Ev → Option String)
    (enrich : ManifestEntry → Enrichment) (ft : String → String)
    (wbf : List WebflowItem) (m : List ManifestEntry) (s : SyncState)
    (h12 : m.length = 12) :
    ∃ t1 t2 t3,
      (runBatches (processPlugin fail enrich ft wbf) m s).2 =
        t1 ++ [RunEv.delay] ++ t2 ++ [RunEv.delay] ++ t3 ∧
      processedOf t1 = m.take 5 ∧
      processedOf t2 = (m.drop 5).take 5 ∧
      processedOf t3 = (m.drop 5).drop 5 ∧
      delayCount t1 = 0 ∧ delayCount t2 = 0 ∧ delayCount t3 = 0 ∧
      (m.take 5).length = 5 ∧ ((m.drop 5).take 5).length = 5 ∧
      ((m.drop 5).drop 5).length = 2 ∧
      m.take 5 ++ ((m.drop 5).take 5 ++ (m.drop 5).drop 5) = m := by
  have hm1 : m ≠ [] := by
    intro h; rw [h] at h12; simp at h12
  have hlen5 : (m.drop BATCH_SIZE).length = 7 := by
    simp [List.length_drop, h12, BATCH_SIZE]
  have hm2 : m.drop BATCH_SIZE ≠ [] := by
    intro h; rw [h] at hlen5; simp at hlen5
  have hlen10 : ((m.drop BATCH_SIZE).drop BATCH_SIZE).length = 2 := by
    rw [List.length_drop, hlen5]
    decide
  have hm3 : (m.drop BATCH_SIZE).drop BATCH_SIZE ≠ [] := by
    intro h; rw [h] at hlen10; simp at hlen10
  have hnil : (((m.drop BATCH_SIZE).drop BATCH_SIZE).drop BATCH_SIZE) = [] := by
    apply List.eq_nil_of_length_eq_zero
    rw [List.length_drop, hlen10]
    decide
  have h3 : ((m.drop BATCH_SIZE).drop BATCH_SIZE).take BATCH_SIZE =
      (m.drop BATCH_SIZE).drop BATCH_SIZE := by
    apply List.take_of_length_le
    rw [hlen10]; decide
  have hc1 : BATCH_SIZE < m.length := by rw [h12]; decide
  have hc2 : BATCH_SIZE < (m.drop BATCH_SIZE).length := by rw [hlen5]; decide
  have hc3 : ¬ BATCH_SIZE < ((m.drop BATCH_SIZE).drop BATCH_SIZE).length := by
    rw [hlen10]; decide
  rw [runBatches_cons (processPlugin fail enrich ft wbf) m s hm1]
  rw [runBatches_cons (processPlugin fail enrich ft wbf) (m.drop BATCH_SIZE) _ hm2]
  rw [runBatches_cons (processPlugin fail enrich ft wbf)
    ((m.drop BATCH_SIZE).drop BATCH_SIZE) _ hm3]
  rw [hnil, runBatches_nil, if_pos hc1, if_pos hc2, if_neg hc3, h3]
  refine ⟨(runChunk (processPlugin fail enrich ft wbf) (m.take BATCH_SIZE) s).2,
    (runChunk (processPlugin fail enrich ft wbf) ((m.drop BATCH_SIZE).take BATCH_SIZE)
      (runChunk (processPlugin fail enrich ft wbf) (m.take BATCH_SIZE) s).1).2,
    (runChunk (processPlugin fail enrich ft wbf)
      ((m.drop BATCH_SIZE).drop BATCH_SIZE)
      (runChunk (processPlugin fail enrich ft wbf) ((m.drop BATCH_SIZE).take BATCH_SIZE)
        (runChunk (processPlugin fail enrich ft wbf) (m.take BATCH_SIZE) s).1).1).2,
    ?_, ?_, ?_, ?_, ?_, ?_, ?_, ?_, ?_, ?_, ?_⟩
  · simp [List.append_assoc]
  · exact runChunk_processedOf _ _ _
  · exact runChunk_processedOf _ _ _
  · exact runChunk_processedOf _ _ _
  · exact runChunk_delayCount _ _ _
  · exact runChunk_delayCount _ _ _
  · exact runChunk_delayCount _ _ _
  · simp only [List.length_take]
    omega
  · simp only [List.length_take, List.length_drop]
    omega
  · simp only [List.length_drop]
    omega
  · rw [List.take_append_drop, List.take_append_drop]

/-! ### C6: exception handling at the entry boundary -/

theorem isPrefixOf_self_char (l : List Char) : l.isPrefixOf l = true := by
  induction l with
  | nil => rfl
  | cons c t ih => simp [List.isPrefixOf, ih]

theorem hasSub_append_self (pre l : List Char) : hasSub (pre ++ l) l = true := by
  induction pre with
  | nil =>
    cases l with
    | nil => rfl
    | cons c t => simp [hasSub, isPrefixOf_self_char]
  | cons p pre ih =>
    cases l with
    | nil => rfl
    | cons c t => simp [hasSub, ih]

theorem errReason_hasSub (msg : String) :
    hasSub (errReason msg).data msg.data = true := by
  have h : (errReason msg).data = "Webflow or Algolia error: ".data ++ msg.data := by
    simp [errReason, String.data_append]
  rw [h]
  exact hasSub_append_self _ _

/-- C6 (amended): any exception raised during an entry's create-path or
update-path store mutation is caught inside `processPlugin` and recorded in
the failed list as the entry's name with a reason containing the error's
message, and no per-entry exception stops the remaining entries of the run
from being processed; exceptions in the no-content deletion path, however,
are caught inside `processDeletePlugin` and produce no failed-list record
carrying the error's message (the entry is already recorded as failed with
the content reason). -/
theorem claim6_exception_handling (fail : Ev → Option String)
    (enrich : ManifestEntry → Enrichment) (ft : String → String)
    (wbf : List WebflowItem) (g : ManifestEntry) (s : SyncState) (c : String)
    (hc : contentOf (enrich g).readme = some c) :
    (∀ wp msg, findPluginByName wbf g.name = some wp →
      isPluginEqual g wp.fieldData c = true →
      fail (Ev.webflowUpdate wp.id
        (mkFieldData ft g (basename g.githubUrl) c (enrich g))) = some msg →
      (processPlugin fail enrich ft wbf g s).1 =
        { s with rep := { s.rep with
            failed := s.rep.failed ++ [(g.name, errReason msg)] } }) ∧
    (∀ wp msg, findPluginByName wbf g.name = some wp →
      isPluginEqual g wp.fieldData c = true →
      fail (Ev.webflowUpdate wp.id
        (mkFieldData ft g (basename g.githubUrl) c (enrich g))) = none →
      fail (Ev.algoliaUpdate (mkAlgoliaItem g (basename g.githubUrl) (enrich g))) = some msg →
      (processPlugin fail enrich ft wbf g s).1 =
        ⟨updateWebflowItem wp.id
            (mkFieldData ft g (basename g.githubUrl) c (enrich g)) s.web,
          s.alg,
          { s.rep with failed := s.rep.failed ++ [(g.name, errReason msg)] }⟩) ∧
    (∀ msg, findPluginByName wbf g.name = none →
      fail (Ev.webflowCreate (mkFieldData ft g (basename g.githubUrl) c (enrich g))) = some msg →
      (processPlugin fail enrich ft wbf g s).1 =
        { s with rep := { s.rep with
            failed := s.rep.failed ++ [(g.name, errReason msg)] } }) ∧
    (∀ msg, findPluginByName wbf g.name = none →
      fail (Ev.webflowCreate (mkFieldData ft g (basename g.githubUrl) c (enrich g))) = none →
      fail (Ev.algoliaCreate (mkAlgoliaItem g (basename g.githubUrl) (enrich g))) = some msg →
      (processPlugin fail enrich ft wbf g s).1 =
        ⟨createWebflowItem (mkFieldData ft g (basename g.githubUrl) c (enrich g)) s.web,
          s.alg,
          { s.rep with failed := s.rep.failed ++ [(g.name, errReason msg)] }⟩) ∧
    (∀ msg, hasSub (errReason msg).data msg.data = true) ∧
    (∀ (gs : List ManifestEntry) (s' : SyncState),
      processedOf (runChunk (processPlugin fail enrich ft wbf) gs s').2 = gs) := by
  refine ⟨?_, ?_, ?_, ?_, fun msg => errReason_hasSub msg,
    fun gs s' => runChunk_processedOf _ gs s'⟩
  · intro wp msg hf he h1
    simp [processPlugin, hc, hf, he, h1]
  · intro wp msg hf he h1 h2
    simp [processPlugin, hc, hf, he, h1, h2]
  · intro msg hf h1
    simp [processPlugin, hc, hf, h1]
  · intro msg hf h1 h2
    simp [processPlugin, hc, hf, h1, h2]

/-- C6 counterexample to the claim as stated: with README content absent and
an existing record, the content-store delete throws `"boom"`; the exception
is swallowed inside `processDeletePlugin`, and no failed-list record carries
the error's message — the only failed record is the content one. -/
theorem claim6_counterexample :
    (processPlugin failDeleteW enrNone (fun s => s) [wMatch] gActive st0).2 =
        [Ev.webflowDelete wMatch.id] ∧
    failDeleteW (Ev.webflowDelete wMatch.id) = some "boom" ∧
    (processPlugin failDeleteW enrNone (fun s => s) [wMatch] gActive st0).1.rep.failed =
        [(gActive.name, "No README content found")] ∧
    ((processPlugin failDeleteW enrNone (fun s => s) [wMatch] gActive st0).1.rep.failed.all
        fun pr => !(hasSub pr.2.data "boom".data)) = true := by
  decide

/-- Witness for `claim6_exception_handling`: the update path with a throwing
content-store call at a concrete input. -/
theorem claim6_witness :
    contentOf (enrR gActive).readme = some "R" ∧
    findPluginByName [wStale] gActive.name = some wStale ∧
    isPluginEqual gActive wStale.fieldData "R" = true ∧
    failUpdateW (Ev.webflowUpdate wStale.id
      (mkFieldData (fun s => s) gActive (basename gActive.githubUrl) "R"
        (enrR gActive))) = some "boom" ∧
    (processPlugin failUpdateW enrR (fun s => s) [wStale] gActive st0).1 =
      { st0 with rep := { st0.rep with
          failed := st0.rep.failed ++ [(gActive.name, errReason "boom")] } } :=
  ⟨rfl, by decide, by decide, rfl,
   (claim6_exception_handling failUpdateW enrR (fun s => s) [wStale] gActive st0 "R"
      rfl).1 wStale "boom" (by decide) (by decide) rfl⟩

/-- Witness for `claim4_batching` at a concrete 12-entry manifest. -/
theorem claim4_witness :
    (List.replicate 12 gActive).length = 12 ∧
    (∃ t1 t2 t3,
      (runBatches (processPlugin noFail enrR (fun s => s) []) (List.replicate 12 gActive) st0).2 =
        t1 ++ [RunEv.delay] ++ t2 ++ [RunEv.delay] ++ t3 ∧
      processedOf t1 = (List.replicate 12 gActive).take 5 ∧
      processedOf t2 = ((List.replicate 12 gActive).drop 5).take 5 ∧
      processedOf t3 = ((List.replicate 12 gActive).drop 5).drop 5 ∧
      delayCount t1 = 0 ∧ delayCount t2 = 0 ∧ delayCount t3 = 0 ∧
      ((List.replicate 12 gActive).take 5).length = 5 ∧
      (((List.replicate 12 gActive).drop 5).take 5).length = 5 ∧
      (((List.replicate 12 gActive).drop 5).drop 5).length = 2 ∧
      (List.replicate 12 gActive).take 5 ++
        (((List.replicate 12 gActive).drop 5).take 5 ++
          ((List.replicate 12 gActive).drop 5).drop 5) = List.replicate 12 gActive) :=
  ⟨by decide,
   claim4_batching noFail enrR (fun s => s) [] (List.replicate 12 gActive) st0 (by decide)⟩

/-! ### Lookup, `withIds`, `createsSpec` and `fateOne` lemmas -/

theorem findPluginByName_eq_none {items : List WebflowItem} {n : String} :
    findPluginByName items n = none ↔ ∀ it ∈ items, it.fieldData.name ≠ n := by
  simp [findPluginByName, List.find?_eq_none]

theorem findPluginByName_some_mem {items : List WebflowItem} {n : String}
    {wp : WebflowItem} (h : findPluginByName items n = some wp) : wp ∈ items :=
  List.mem_of_find?_eq_some h

theorem findPluginByName_some_name {items : List WebflowItem} {n : String}
    {wp : WebflowItem} (h : findPluginByName items n = some wp) :
    wp.fieldData.name = n := by
  have := List.find?_some h
  simpa using this

theorem findManifestByName_eq_none {ms : List ManifestEntry} {n : String} :
    findManifestByName ms n = none ↔ ∀ g ∈ ms, g.name ≠ n := by
  simp [findManifestByName, List.find?_eq_none]

theorem findManifestByName_some_mem {ms : List ManifestEntry} {n : String}
    {g : ManifestEntry} (h : findManifestByName ms n = some g) : g ∈ ms :=
  List.mem_of_find?_eq_some h

theorem findManifestByName_some_name {ms : List ManifestEntry} {n : String}
    {g : ManifestEntry} (h : findManifestByName ms n = some g) : g.name = n := by
  have := List.find?_some h
  simpa using this

theorem withIds_append (l1 l2 : List FieldData) :
    ∀ n, withIds n (l1 ++ l2) = withIds n l1 ++ withIds (n + l1.length) l2 := by
  induction l1 with
  | nil => intro n; simp [withIds]
  | cons fd l1 ih =>
    intro n
    simp only [List.cons_append, withIds, List.length_cons, List.append_eq]
    rw [ih (n + 1)]
    have h : n + 1 + l1.length = n + (l1.length + 1) := by omega
    rw [h]

theorem mem_withIds {x : WebflowItem} :
    ∀ {n : Nat} {l : List FieldData}, x ∈ withIds n l → n ≤ x.id ∧ x.fieldData ∈ l := by
  intro n l
  induction l generalizing n with
  | nil => intro h; simp [withIds] at h
  | cons fd rest ih =>
    intro h
    simp only [withIds, List.mem_cons] at h
    rcases h with h | h
    · subst h; simp
    · rcases ih h with ⟨h1, h2⟩
      exact ⟨by omega, List.mem_cons_of_mem _ h2⟩

theorem withIds_map_fieldData :
    ∀ (n : Nat) (l : List FieldData), (withIds n l).map (fun x => x.fieldData) = l := by
  intro n l
  induction l generalizing n with
  | nil => rfl
  | cons fd rest ih => simp [withIds, ih]

theorem createsSpec_append (enrich : ManifestEntry → Enrichment) (ft : String → String)
    (snapshot : List WebflowItem) (P Q : List ManifestEntry) :
    createsSpec enrich ft snapshot (P ++ Q) =
      createsSpec enrich ft snapshot P ++ createsSpec enrich ft snapshot Q :=
  List.filterMap_append _ _ _

theorem createsSpec_single_create (enrich : ManifestEntry → Enrichment)
    (ft : String → String) (snapshot : List WebflowItem) (g : ManifestEntry)
    (c : String) (hc : contentOf (enrich g).readme = some c)
    (hf : findPluginByName snapshot g.name = none) :
    createsSpec enrich ft snapshot [g] =
      [mkFieldData ft g (basename g.githubUrl) c (enrich g)] := by
  simp [createsSpec, hc, hf]

theorem createsSpec_single_skip (enrich : ManifestEntry → Enrichment)
    (ft : String → String) (snapshot : List WebflowItem) (g : ManifestEntry)
    (h : contentOf (enrich g).readme = none ∨
      (findPluginByName snapshot g.name).isSome = true) :
    createsSpec enrich ft snapshot [g] = [] := by
  rcases h with h | h
  · simp [createsSpec, h]
  · rcases Option.isSome_iff_exists.mp h with ⟨wp, hwp⟩
    cases hc : contentOf (enrich g).readme <;> simp [createsSpec, hc, hwp]

theorem mem_createsSpec {enrich : ManifestEntry → Enrichment} {ft : String → String}
    {snapshot : List WebflowItem} {P : List ManifestEntry} {fd : FieldData}
    (h : fd ∈ createsSpec enrich ft snapshot P) :
    ∃ g ∈ P, ∃ c, contentOf (enrich g).readme = some c ∧
      findPluginByName snapshot g.name = none ∧
      fd = mkFieldData ft g (basename g.githubUrl) c (enrich g) := by
  rcases List.mem_filterMap.mp h with ⟨g, hg, hfd⟩
  refine ⟨g, hg, ?_⟩
  cases hc : contentOf (enrich g).readme with
  | none => rw [hc] at hfd; simp at hfd
  | some c =>
    cases hf : findPluginByName snapshot g.name with
    | none =>
      rw [hc, hf] at hfd
      simp at hfd
      exact ⟨c, rfl, rfl, hfd.symm⟩
    | some wp => rw [hc, hf] at hfd; simp at hfd

theorem createsSpec_mem_of (enrich : ManifestEntry → Enrichment) (ft : String → String)
    (snapshot : List WebflowItem) {P : List ManifestEntry} {g : ManifestEntry}
    (hg : g ∈ P) {c : String} (hc : contentOf (enrich g).readme = some c)
    (hf : findPluginByName snapshot g.name = none) :
    mkFieldData ft g (basename g.githubUrl) c (enrich g) ∈
      createsSpec enrich ft snapshot P := by
  apply List.mem_filterMap.mpr
  exact ⟨g, hg, by rw [hc, hf]⟩

theorem fateOne_nil (enrich : ManifestEntry → Enrichment) (ft : String → String)
    (it : WebflowItem) : fateOne enrich ft [] it = some it := rfl

theorem fateOne_id {enrich : ManifestEntry → Enrichment} {ft : String → String}
    {P : List ManifestEntry} {it x : WebflowItem}
    (h : fateOne enrich ft P it = some x) : x.id = it.id := by
  unfold fateOne at h
  repeat' split at h
  all_goals cases h
  all_goals rfl

theorem fateOne_untouched {enrich : ManifestEntry → Enrichment} {ft : String → String}
    {P : List ManifestEntry} {it : WebflowItem}
    (h : findManifestByName P it.fieldData.name = none) :
    fateOne enrich ft P it = some it := by
  unfold fateOne
  rw [h]

theorem fateOne_append_ne {enrich : ManifestEntry → Enrichment} {ft : String → String}
    {P : List ManifestEntry} {g : ManifestEntry} {it : WebflowItem}
    (h : g.name ≠ it.fieldData.name) :
    fateOne enrich ft (P ++ [g]) it = fateOne enrich ft P it := by
  unfold fateOne findManifestByName
  rw [List.find?_append]
  have h1 : List.find? (fun g' => g'.name == it.fieldData.name) [g] = none := by
    simp [h]
  rw [h1, Option.or_none]

theorem findManifestByName_append_self {P : List ManifestEntry} {g : ManifestEntry}
    {n : String} (hP : findManifestByName P n = none) (hg : g.name = n) :
    findManifestByName (P ++ [g]) n = some g := by
  unfold findManifestByName at hP ⊢
  rw [List.find?_append, hP]
  simp [hg]

/-! ### The batch loop as a fold over the manifest -/

theorem runChunk_fst (step : ManifestEntry → SyncState → SyncState × List Ev) :
    ∀ (gs : List ManifestEntry) (s : SyncState),
      (runChunk step gs s).1 = gs.foldl (fun s g => (step g s).1) s := by
  intro gs
  induction gs with
  | nil => intro s; rfl
  | cons g gs ih =>
    intro s
    simp only [runChunk, List.foldl_cons]
    exact ih (step g s).1

theorem runBatches_fst (step : ManifestEntry → SyncState → SyncState × List Ev) :
    ∀ (m : List ManifestEntry) (s : SyncState),
      (runBatches step m s).1 = m.foldl (fun s g => (step g s).1) s := by
  suffices h : ∀ (n : Nat) (m : List ManifestEntry) (s : SyncState),
      m.length ≤ n → (runBatches step m s).1 = m.foldl (fun s g => (step g s).1) s by
    intro m s
    exact h m.length m s le_rfl
  intro n
  induction n with
  | zero =>
    intro m s hle
    have hm : m = [] := List.eq_nil_of_length_eq_zero (Nat.le_zero.mp hle)
    subst hm
    rw [runBatches_nil]
    rfl
  | succ n ih =>
    intro m s hle
    by_cases hm : m = []
    · subst hm; rw [runBatches_nil]; rfl
    · rw [runBatches_cons step m s hm]
      have hdrop : (m.drop BATCH_SIZE).length ≤ n := by
        have h1 : 1 ≤ m.length := List.length_pos.mpr hm
        simp only [List.length_drop, BATCH_SIZE]
        omega
      have h2 := ih (m.drop BATCH_SIZE) (runChunk step (m.take BATCH_SIZE) s).1 hdrop
      dsimp only
      rw [h2, runChunk_fst, ← List.foldl_append, List.take_append_drop]

/-! ### Report characterization of a run without store failures -/

theorem processPlugin_noFail_rep (enrich : ManifestEntry → Enrichment)
    (ft : String → String) (snapshot : List WebflowItem) (g : ManifestEntry)
    (s : SyncState) :
    ((processPlugin noFail enrich ft snapshot g s).1).rep =
      ⟨s.rep.created ++ createdDelta enrich snapshot g,
       s.rep.updated ++ updatedDelta enrich snapshot g,
       s.rep.deleted ++ deletedDelta enrich snapshot g,
       s.rep.failed ++ failedDelta enrich g⟩ := by
  cases hc : contentOf (enrich g).readme with
  | none =>
    cases hf : findPluginByName snapshot g.name with
    | none =>
      simp [processPlugin, hc, hf, createdDelta, updatedDelta, deletedDelta,
        failedDelta, createsEntry, updatesEntry]
    | some wp =>
      simp [processPlugin, processDeletePlugin, noFail, hc, hf, createdDelta,
        updatedDelta, deletedDelta, failedDelta, createsEntry, updatesEntry]
  | some c =>
    cases hf : findPluginByName snapshot g.name with
    | none =>
      simp [processPlugin, noFail, hc, hf, createdDelta, updatedDelta,
        deletedDelta, failedDelta, createsEntry, updatesEntry]
    | some wp =>
      cases he : isPluginEqual g wp.fieldData c with
      | false =>
        simp [processPlugin, noFail, hc, hf, he, createdDelta, updatedDelta,
          deletedDelta, failedDelta, createsEntry, updatesEntry]
      | true =>
        simp [processPlugin, noFail, hc, hf, he, createdDelta, updatedDelta,
          deletedDelta, failedDelta, createsEntry, updatesEntry]

theorem foldl_noFail_rep (enrich : ManifestEntry → Enrichment)
    (ft : String → String) (snapshot : List WebflowItem) :
    ∀ (m : List ManifestEntry) (s : SyncState),
      (m.foldl (fun s g => (processPlugin noFail enrich ft snapshot g s).1) s).rep =
        ⟨s.rep.created ++ m.flatMap (createdDelta enrich snapshot),
         s.rep.updated ++ m.flatMap (updatedDelta enrich snapshot),
         s.rep.deleted ++ m.flatMap (deletedDelta enrich snapshot),
         s.rep.failed ++ m.flatMap (failedDelta enrich)⟩ := by
  intro m
  induction m with
  | nil => intro s; simp
  | cons g gs ih =>
    intro s
    simp only [List.foldl_cons, List.flatMap_cons]
    rw [ih, processPlugin_noFail_rep]
    simp [List.append_assoc]

theorem orphanPass_noFail_rep (manifest : List ManifestEntry) :
    ∀ (rest : List WebflowItem) (s : SyncState),
      ((orphanPass noFail manifest rest s).1).rep =
        { s.rep with deleted := s.rep.deleted ++ orphanDeleted manifest rest } := by
  intro rest
  induction rest with
  | nil => intro s; simp [orphanPass, orphanDeleted]
  | cons wp rest ih =>
    intro s
    cases hf : findManifestByName manifest wp.fieldData.name with
    | some g =>
      simp only [orphanPass, hf]
      rw [ih]
      simp [orphanDeleted, hf]
    | none =>
      simp only [orphanPass, hf]
      rw [ih]
      simp [processDeletePlugin, noFail, orphanDeleted, hf, List.append_assoc]

theorem orphanPass_noFail_web (manifest : List ManifestEntry) :
    ∀ (rest : List WebflowItem) (s : SyncState),
      ((orphanPass noFail manifest rest s).1).web.items =
        s.web.items.filter (fun x => !((orphanIds manifest rest).contains x.id)) := by
  intro rest
  induction rest with
  | nil => intro s; simp [orphanPass, orphanIds]
  | cons wp rest ih =>
    intro s
    cases hf : findManifestByName manifest wp.fieldData.name with
    | some g =>
      simp only [orphanPass, hf]
      rw [ih]
      apply List.filter_congr
      intro x hx
      simp [orphanIds, hf]
    | none =>
      simp only [orphanPass, hf]
      rw [ih]
      simp only [processDeletePlugin, noFail, deleteWebflowItem]
      rw [List.filter_filter]
      apply List.filter_congr
      intro x hx
      simp only [orphanIds, List.filter_cons, hf, Option.isNone_none,
        List.map_cons, List.contains_cons]
      cases hxe : x.id == wp.id with
      | true =>
        have : (x.id ≠ wp.id) = False := by
          simp [eq_of_beq hxe]
        simp [hxe, this]
      | false =>
        have : (x.id ≠ wp.id) = True := by
          simp [ne_of_beq_false hxe]
        simp [hxe, this]

theorem orphanPass_noFail_alg (manifest : List ManifestEntry) :
    ∀ (rest : List WebflowItem) (s : SyncState),
      ((orphanPass noFail manifest rest s).1).alg =
        s.alg.filter (fun a => !((orphanSlugs manifest rest).contains a.objectID)) := by
  intro rest
  induction rest with
  | nil => intro s; simp [orphanPass, orphanSlugs]
  | cons wp rest ih =>
    intro s
    cases hf : findManifestByName manifest wp.fieldData.name with
    | some g =>
      simp only [orphanPass, hf]
      rw [ih]
      apply List.filter_congr
      intro x hx
      simp [orphanSlugs, hf]
    | none =>
      simp only [orphanPass, hf]
      rw [ih]
      simp only [processDeletePlugin, noFail, deleteAlgoliaItem]
      rw [List.filter_filter]
      apply List.filter_congr
      intro x hx
      simp only [orphanSlugs, List.filter_cons, hf, Option.isNone_none,
        List.map_cons, List.contains_cons]
      cases hxe : x.objectID == wp.fieldData.slug with
      | true =>
        have : (x.objectID ≠ wp.fieldData.slug) = False := by
          simp [eq_of_beq hxe]
        simp [hxe, this]
      | false =>
        have : (x.objectID ≠ wp.fieldData.slug) = True := by
          simp [ne_of_beq_false hxe]
        simp [hxe, this]

/-! ### Evolution of the content store across the batch loop -/

theorem processPlugin_web_mem (fail : Ev → Option String)
    (enrich : ManifestEntry → Enrichment) (ft : String → String)
    (snapshot : List WebflowItem) (g : ManifestEntry) (s : SyncState) :
    ∀ x ∈ ((processPlugin fail enrich ft snapshot g s).1).web.items,
      x ∈ s.web.items ∨ x.fieldData.name = g.name := by
  intro x hx
  cases hc : contentOf (enrich g).readme with
  | none =>
    cases hf : findPluginByName snapshot g.name with
    | none =>
      simp [processPlugin, hc, hf] at hx
      exact Or.inl hx
    | some wp =>
      cases h1 : fail (Ev.webflowDelete wp.id) with
      | some m =>
        simp [processPlugin, processDeletePlugin, hc, hf, h1] at hx
        exact Or.inl hx
      | none =>
        cases h2 : fail (Ev.algoliaDelete wp.fieldData.slug) with
        | some m =>
          simp [processPlugin, processDeletePlugin, deleteWebflowItem,
            hc, hf, h1, h2] at hx
          exact Or.inl hx.1
        | none =>
          simp [processPlugin, processDeletePlugin, deleteWebflowItem,
            hc, hf, h1, h2] at hx
          exact Or.inl hx.1
  | some c =>
    cases hf : findPluginByName snapshot g.name with
    | some wp =>
      cases he : isPluginEqual g wp.fieldData c with
      | false =>
        simp [processPlugin, hc, hf, he] at hx
        exact Or.inl hx
      | true =>
        cases h1 : fail (Ev.webflowUpdate wp.id
            (mkFieldData ft g (basename g.githubUrl) c (enrich g))) with
        | some m =>
          simp [processPlugin, hc, hf, he, h1] at hx
          exact Or.inl hx
        | none =>
          cases h2 : fail (Ev.algoliaUpdate (mkAlgoliaItem g (basename g.githubUrl)
              (enrich g))) with
          | some m =>
            simp [processPlugin, updateWebflowItem, hc, hf, he, h1, h2] at hx
            rcases hx with ⟨y, hy, hxy⟩
            by_cases hid : y.id = wp.id
            · rw [if_pos hid] at hxy
              right
              rw [← hxy]
              rfl
            · rw [if_neg hid] at hxy
              exact Or.inl (hxy ▸ hy)
          | none =>
            simp [processPlugin, updateWebflowItem, hc, hf, he, h1, h2] at hx
            rcases hx with ⟨y, hy, hxy⟩
            by_cases hid : y.id = wp.id
            · rw [if_pos hid] at hxy
              right
              rw [← hxy]
              rfl
            · rw [if_neg hid] at hxy
              exact Or.inl (hxy ▸ hy)
    | none =>
      cases h1 : fail (Ev.webflowCreate
          (mkFieldData ft g (basename g.githubUrl) c (enrich g))) with
      | some m =>
        simp [processPlugin, hc, hf, h1] at hx
        exact Or.inl hx
      | none =>
        cases h2 : fail (Ev.algoliaCreate (mkAlgoliaItem g (basename g.githubUrl)
            (enrich g))) with
        | some m =>
          simp [processPlugin, createWebflowItem, hc, hf, h1, h2] at hx
          rcases hx with hx | hx
          · exact Or.inl hx
          · right; rw [hx]; rfl
        | none =>
          simp [processPlugin, createWebflowItem, hc, hf, h1, h2] at hx
          rcases hx with hx | hx
          · exact Or.inl hx
          · right; rw [hx]; rfl

theorem foldl_state_inv (P : SyncState → Prop)
    (step : ManifestEntry → SyncState → SyncState × List Ev) :
    ∀ (m : List ManifestEntry) (s : SyncState),
      (∀ g ∈ m, ∀ s', P s' → P (step g s').1) → P s →
      P (m.foldl (fun s g => (step g s).1) s) := by
  intro m
  induction m with
  | nil => intro s _ hs; exact hs
  | cons g gs ih =>
    intro s hstep hs
    simp only [List.foldl_cons]
    exact ih (step g s).1 (fun g' hg' => hstep g' (List.mem_cons_of_mem _ hg'))
      (hstep g (List.mem_cons_self _ _) s hs)

theorem count_eq_one_of_nodup_mem {α} [BEq α] [LawfulBEq α] {a : α} :
    ∀ {l : List α}, l.Nodup → a ∈ l → l.count a = 1 := by
  intro l
  induction l with
  | nil => intro _ h; simp at h
  | cons b t ih =>
    intro hnd hmem
    rcases List.nodup_cons.mp hnd with ⟨hb, ht⟩
    rcases List.mem_cons.mp hmem with h | h
    · subst h
      rw [List.count_cons_self]
      have h0 : t.count a = 0 := List.count_eq_zero.mpr hb
      omega
    · have hne : a ≠ b := by
        intro he
        subst he
        exact hb h
      rw [List.count_cons_of_ne hne, ih ht h]

/-! ### Decomposition of a full run -/

theorem syncRun_fst (fail : Ev → Option String) (enrich : ManifestEntry → Enrichment)
    (ft : String → String) (manifest : List ManifestEntry)
    (web0 : WebflowState) (alg0 : List AlgoliaItem) :
    (syncRun fail enrich ft manifest web0 alg0).1 =
      (orphanPass fail manifest web0.items
        ((runBatches (processPlugin fail enrich ft web0.items) manifest
          ⟨web0, alg0, emptyReport⟩).1)).1 := rfl

theorem syncRun_noFail_rep (enrich : ManifestEntry → Enrichment)
    (ft : String → String) (manifest : List ManifestEntry)
    (web0 : WebflowState) (alg0 : List AlgoliaItem) :
    (syncRun noFail enrich ft manifest web0 alg0).1.rep =
      ⟨manifest.flatMap (createdDelta enrich web0.items),
       manifest.flatMap (updatedDelta enrich web0.items),
       manifest.flatMap (deletedDelta enrich web0.items) ++
         orphanDeleted manifest web0.items,
       manifest.flatMap (failedDelta enrich)⟩ := by
  rw [syncRun_fst, orphanPass_noFail_rep, runBatches_fst, foldl_noFail_rep]
  simp [emptyReport]

/-! ### C5: orphan records are deleted from both stores -/

/-- C5: after a run with no store failures, every catalog record of the
snapshot whose `fieldData.name` matches no manifest entry is gone from the
content store (no surviving item carries its id or its name), gone from the
search index (no record carries its slug as object id), and its name is in
the deleted list exactly once. -/
theorem claim5_orphan_deletion (enrich : ManifestEntry → Enrichment)
    (ft : String → String) (manifest : List ManifestEntry)
    (web0 : WebflowState) (alg0 : List AlgoliaItem) (it : WebflowItem)
    (hnames : (web0.items.map fun x => x.fieldData.name).Nodup)
    (hit : it ∈ web0.items)
    (horphan : ∀ g ∈ manifest, g.name ≠ it.fieldData.name) :
    (∀ x ∈ (syncRun noFail enrich ft manifest web0 alg0).1.web.items,
      x.id ≠ it.id ∧ x.fieldData.name ≠ it.fieldData.name) ∧
    (∀ a ∈ (syncRun noFail enrich ft manifest web0 alg0).1.alg,
      a.objectID ≠ it.fieldData.slug) ∧
    (syncRun noFail enrich ft manifest web0 alg0).1.rep.deleted.count
      it.fieldData.name = 1 := by
  have horphIt : findManifestByName manifest it.fieldData.name = none :=
    findManifestByName_eq_none.mpr horphan
  have hitIds : it.id ∈ orphanIds manifest web0.items := by
    simp only [orphanIds, List.mem_map]
    exact ⟨it, List.mem_filter.mpr ⟨hit, by simp [horphIt]⟩, rfl⟩
  have hitSlugs : it.fieldData.slug ∈ orphanSlugs manifest web0.items := by
    simp only [orphanSlugs, List.mem_map]
    exact ⟨it, List.mem_filter.mpr ⟨hit, by simp [horphIt]⟩, rfl⟩
  have hweb : (syncRun noFail enrich ft manifest web0 alg0).1.web.items =
      ((runBatches (processPlugin noFail enrich ft web0.items) manifest
        ⟨web0, alg0, emptyReport⟩).1).web.items.filter
        (fun x => !((orphanIds manifest web0.items).contains x.id)) := by
    rw [syncRun_fst, orphanPass_noFail_web]
  have halg : (syncRun noFail enrich ft manifest web0 alg0).1.alg =
      ((runBatches (processPlugin noFail enrich ft web0.items) manifest
        ⟨web0, alg0, emptyReport⟩).1).alg.filter
        (fun a => !((orphanSlugs manifest web0.items).contains a.objectID)) := by
    rw [syncRun_fst, orphanPass_noFail_alg]
  refine ⟨?_, ?_, ?_⟩
  · intro x hx
    rw [hweb] at hx
    have hx' := List.mem_filter.mp hx
    have hid : x.id ≠ it.id := by
      intro he
      have hcont : (orphanIds manifest web0.items).contains x.id = true := by
        rw [he]; simp [hitIds]
      rw [hcont] at hx'
      simp at hx'
    have hinv : ∀ y ∈ ((runBatches (processPlugin noFail enrich ft web0.items)
        manifest ⟨web0, alg0, emptyReport⟩).1).web.items,
        y.fieldData.name = it.fieldData.name → y.id = it.id := by
      rw [runBatches_fst]
      apply foldl_state_inv
        (fun st => ∀ y ∈ st.web.items,
          y.fieldData.name = it.fieldData.name → y.id = it.id)
      · intro g hg s' hP y hy hname
        rcases processPlugin_web_mem noFail enrich ft web0.items g s' y hy with h | h
        · exact hP y h hname
        · exact absurd (h.symm.trans hname) (horphan g hg)
      · intro y hy hname
        have := List.inj_on_of_nodup_map hnames hy hit hname
        rw [this]
    exact ⟨hid, fun hname => hid (hinv x hx'.1 hname)⟩
  · intro a ha
    rw [halg] at ha
    have ha' := List.mem_filter.mp ha
    intro he
    have hcont : (orphanSlugs manifest web0.items).contains a.objectID = true := by
      rw [he]; simp [hitSlugs]
    rw [hcont] at ha'
    simp at ha'
  · rw [syncRun_noFail_rep]
    dsimp only
    rw [List.count_append]
    have h0 : (manifest.flatMap (deletedDelta enrich web0.items)).count
        it.fieldData.name = 0 := by
      rw [List.count_eq_zero]
      intro hmem
      rcases List.mem_flatMap.mp hmem with ⟨g, hg, hd⟩
      unfold deletedDelta at hd
      rcases hcg : contentOf (enrich g).readme with _ | c
      · rw [hcg] at hd
        rcases hfg : findPluginByName web0.items g.name with _ | wp
        · rw [hfg] at hd; simp at hd
        · rw [hfg] at hd
          simp at hd
          exact horphan g hg ((findPluginByName_some_name hfg) ▸ hd.symm)
      · rw [hcg] at hd; simp at hd
    have h1 : (orphanDeleted manifest web0.items).count it.fieldData.name = 1 := by
      apply count_eq_one_of_nodup_mem
      · exact List.Nodup.sublist ((List.filter_sublist _).map _) hnames
      · simp only [orphanDeleted, List.mem_map]
        exact ⟨it, List.mem_filter.mpr ⟨hit, by simp [horphIt]⟩, rfl⟩
    rw [h0, h1]

/-- Witness for `claim5_orphan_deletion` at a concrete input: an empty
manifest and a single stored record. -/
theorem claim5_witness :
    (((([wMatch] : List WebflowItem)).map fun x => x.fieldData.name).Nodup) ∧
    wMatch ∈ [wMatch] ∧
    (∀ g ∈ ([] : List ManifestEntry), g.name ≠ wMatch.fieldData.name) ∧
    ((∀ x ∈ (syncRun noFail enrR (fun s => s) [] ⟨[wMatch], 8⟩ []).1.web.items,
        x.id ≠ wMatch.id ∧ x.fieldData.name ≠ wMatch.fieldData.name) ∧
      (∀ a ∈ (syncRun noFail enrR (fun s => s) [] ⟨[wMatch], 8⟩ []).1.alg,
        a.objectID ≠ wMatch.fieldData.slug) ∧
      (syncRun noFail enrR (fun s => s) [] ⟨[wMatch], 8⟩ []).1.rep.deleted.count
        wMatch.fieldData.name = 1) :=
  ⟨by decide, by decide, by decide,
   claim5_orphan_deletion enrR (fun s => s) [] ⟨[wMatch], 8⟩ [] wMatch
     (by decide) (by decide) (by decide)⟩

/-! ### The closed form of the content store after the batch loop -/

theorem fateOne_append_self (enrich : ManifestEntry → Enrichment)
    (ft : String → String) {P : List ManifestEntry} {g : ManifestEntry}
    {it : WebflowItem} (hP : findManifestByName P it.fieldData.name = none)
    (hg : g.name = it.fieldData.name) :
    fateOne enrich ft (P ++ [g]) it =
      match contentOf (enrich g).readme with
      | none => none
      | some c =>
        if isPluginEqual g it.fieldData c
        then some ⟨it.id, mkFieldData ft g (basename g.githubUrl) c (enrich g)⟩
        else some it := by
  unfold fateOne
  rw [findManifestByName_append_self hP hg]

theorem fates_append_of_none (enrich : ManifestEntry → Enrichment)
    (ft : String → String) {snapshot : List WebflowItem} {P : List ManifestEntry}
    {g : ManifestEntry} (hf : findPluginByName snapshot g.name = none) :
    snapshot.filterMap (fateOne enrich ft (P ++ [g])) =
      snapshot.filterMap (fateOne enrich ft P) :=
  List.filterMap_congr fun it hits =>
    fateOne_append_ne (fun he => (findPluginByName_eq_none.mp hf it hits) he.symm)

theorem midItems_step (enrich : ManifestEntry → Enrichment) (ft : String → String)
    (snapshot : List WebflowItem) (n0 : Nat)
    (hsn : (snapshot.map fun x => x.fieldData.name).Nodup)
    (hsi : (snapshot.map fun x => x.id).Nodup)
    (hsb : ∀ x ∈ snapshot, x.id < n0)
    (P : List ManifestEntry) (g : ManifestEntry)
    (hgP : ∀ g' ∈ P, g'.name ≠ g.name)
    (s : SyncState)
    (hw : s.web = ⟨midItems enrich ft snapshot n0 P, midNext enrich ft snapshot n0 P⟩) :
    ((processPlugin noFail enrich ft snapshot g s).1).web =
      ⟨midItems enrich ft snapshot n0 (P ++ [g]),
       midNext enrich ft snapshot n0 (P ++ [g])⟩ := by
  have hcid : ∀ x ∈ createsList enrich ft snapshot P n0, n0 ≤ x.id := by
    intro x hx
    exact (mem_withIds hx).1
  cases hc : contentOf (enrich g).readme with
  | none =>
    cases hf : findPluginByName snapshot g.name with
    | none =>
      have hweb : ((processPlugin noFail enrich ft snapshot g s).1).web = s.web := by
        simp [processPlugin, hc, hf]
      rw [hweb, hw]
      rw [show midItems enrich ft snapshot n0 (P ++ [g]) =
          midItems enrich ft snapshot n0 P from ?_,
        show midNext enrich ft snapshot n0 (P ++ [g]) =
          midNext enrich ft snapshot n0 P from ?_]
      · unfold midNext
        rw [createsSpec_append, createsSpec_single_skip enrich ft snapshot g (Or.inl hc)]
        simp
      · unfold midItems createsList
        rw [createsSpec_append, createsSpec_single_skip enrich ft snapshot g (Or.inl hc),
          fates_append_of_none enrich ft hf]
        simp
    | some wp =>
      have hwpmem : wp ∈ snapshot := findPluginByName_some_mem hf
      have hwpname : wp.fieldData.name = g.name := findPluginByName_some_name hf
      have hwid : wp.id < n0 := hsb wp hwpmem
      have hP' : findManifestByName P wp.fieldData.name = none := by
        apply findManifestByName_eq_none.mpr
        intro g' hg'
        rw [hwpname]
        exact hgP g' hg'
      have hweb : ((processPlugin noFail enrich ft snapshot g s).1).web =
          deleteWebflowItem wp.id s.web := by
        simp [processPlugin, processDeletePlugin, noFail, hc, hf]
      rw [hweb, hw]
      unfold deleteWebflowItem midItems midNext createsList
      rw [createsSpec_append, createsSpec_single_skip enrich ft snapshot g (Or.inl hc)]
      simp only [List.append_nil, List.length_append, List.length_nil, Nat.add_zero]
      rw [List.filter_append]
      have hcre : (withIds n0 (createsSpec enrich ft snapshot P)).filter
          (fun it => decide (it.id ≠ wp.id)) =
          withIds n0 (createsSpec enrich ft snapshot P) := by
        apply List.filter_eq_self.mpr
        intro x hx
        have h1 : n0 ≤ x.id := (mem_withIds hx).1
        simp only [decide_eq_true_eq]
        omega
      rw [hcre]
      have hfates : ∀ it ∈ snapshot,
          Option.filter (fun x => decide (x.id ≠ wp.id)) (fateOne enrich ft P it) =
            fateOne enrich ft (P ++ [g]) it := by
        intro it hits
        by_cases hiw : it = wp
        · subst hiw
          rw [fateOne_untouched hP']
          have h1 : fateOne enrich ft (P ++ [g]) it = none := by
            rw [fateOne_append_self enrich ft hP' hwpname.symm, hc]
          rw [h1]
          simp [Option.filter]
        · have hidne : it.id ≠ wp.id := by
            intro he
            exact hiw (List.inj_on_of_nodup_map hsi hits hwpmem he)
          have hne : g.name ≠ it.fieldData.name := by
            intro he
            exact hiw (List.inj_on_of_nodup_map hsn hits hwpmem (by rw [← he, hwpname]))
          rw [fateOne_append_ne hne]
          cases hfo : fateOne enrich ft P it with
          | none => simp [Option.filter]
          | some x =>
            have hx : x.id = it.id := fateOne_id hfo
            simp [Option.filter, hx, hidne]
      rw [List.filter_filterMap, List.filterMap_congr hfates]
  | some c =>
    cases hf : findPluginByName snapshot g.name with
    | none =>
      have hweb : ((processPlugin noFail enrich ft snapshot g s).1).web =
          createWebflowItem (mkFieldData ft g (basename g.githubUrl) c (enrich g))
            s.web := by
        simp [processPlugin, noFail, hc, hf]
      rw [hweb, hw]
      unfold createWebflowItem midItems midNext createsList
      rw [createsSpec_append, createsSpec_single_create enrich ft snapshot g c hc hf,
        fates_append_of_none enrich ft hf, withIds_append]
      simp [withIds, List.append_assoc]
      omega
    | some wp =>
      have hwpmem : wp ∈ snapshot := findPluginByName_some_mem hf
      have hwpname : wp.fieldData.name = g.name := findPluginByName_some_name hf
      have hwid : wp.id < n0 := hsb wp hwpmem
      have hP' : findManifestByName P wp.fieldData.name = none := by
        apply findManifestByName_eq_none.mpr
        intro g' hg'
        rw [hwpname]
        exact hgP g' hg'
      have hskip : createsSpec enrich ft snapshot [g] = [] :=
        createsSpec_single_skip enrich ft snapshot g (Or.inr (by rw [hf]; rfl))
      cases he : isPluginEqual g wp.fieldData c with
      | false =>
        have hweb : ((processPlugin noFail enrich ft snapshot g s).1).web = s.web := by
          simp [processPlugin, hc, hf, he]
        rw [hweb, hw]
        have hfates : ∀ it ∈ snapshot,
            fateOne enrich ft (P ++ [g]) it = fateOne enrich ft P it := by
          intro it hits
          by_cases hiw : it = wp
          · subst hiw
            rw [fateOne_untouched hP']
            rw [fateOne_append_self enrich ft hP' hwpname.symm, hc]
            simp [he]
          · have hne : g.name ≠ it.fieldData.name := by
              intro heq
              exact hiw (List.inj_on_of_nodup_map hsn hits hwpmem (by rw [← heq, hwpname]))
            exact fateOne_append_ne hne
        unfold midItems midNext createsList
        rw [createsSpec_append, hskip, List.filterMap_congr hfates]
        simp
      | true =>
        have hweb : ((processPlugin noFail enrich ft snapshot g s).1).web =
            updateWebflowItem wp.id
              (mkFieldData ft g (basename g.githubUrl) c (enrich g)) s.web := by
          simp [processPlugin, noFail, hc, hf, he]
        rw [hweb, hw]
        unfold updateWebflowItem midItems midNext createsList
        rw [createsSpec_append, hskip]
        simp only [List.append_nil, List.length_append, List.length_nil, Nat.add_zero]
        rw [List.map_append]
        have hcre : (withIds n0 (createsSpec enrich ft snapshot P)).map
            (fun it => if it.id = wp.id then
              (⟨it.id, mkFieldData ft g (basename g.githubUrl) c (enrich g)⟩ :
                WebflowItem) else it) =
            withIds n0 (createsSpec enrich ft snapshot P) := by
          rw [List.map_congr_left (g := fun a => a), List.map_id']
          intro x hx
          have h1 : n0 ≤ x.id := (mem_withIds hx).1
          have h2 : x.id ≠ wp.id := by omega
          rw [if_neg h2]
        rw [hcre]
        have hfates : ∀ it ∈ snapshot,
            Option.map (fun it => if it.id = wp.id then
              (⟨it.id, mkFieldData ft g (basename g.githubUrl) c (enrich g)⟩ :
                WebflowItem) else it) (fateOne enrich ft P it) =
              fateOne enrich ft (P ++ [g]) it := by
          intro it hits
          by_cases hiw : it = wp
          · subst hiw
            rw [fateOne_untouched hP']
            have h1 : fateOne enrich ft (P ++ [g]) it =
                some ⟨it.id, mkFieldData ft g (basename g.githubUrl) c (enrich g)⟩ := by
              rw [fateOne_append_self enrich ft hP' hwpname.symm, hc]
              simp [he]
            rw [h1]
            simp
          · have hidne : it.id ≠ wp.id := by
              intro heq
              exact hiw (List.inj_on_of_nodup_map hsi hits hwpmem heq)
            have hne : g.name ≠ it.fieldData.name := by
              intro heq
              exact hiw (List.inj_on_of_nodup_map hsn hits hwpmem (by rw [← heq, hwpname]))
            rw [fateOne_append_ne hne]
            cases hfo : fateOne enrich ft P it with
            | none => rfl
            | some x =>
              have hx : x.id = it.id := fateOne_id hfo
              simp only [Option.map_some']
              rw [if_neg (by rw [hx]; exact hidne)]
        rw [List.map_filterMap, List.filterMap_congr hfates]

theorem midItems_run (enrich : ManifestEntry → Enrichment) (ft : String → String)
    (snapshot : List WebflowItem) (n0 : Nat)
    (hsn : (snapshot.map fun x => x.fieldData.name).Nodup)
    (hsi : (snapshot.map fun x => x.id).Nodup)
    (hsb : ∀ x ∈ snapshot, x.id < n0) :
    ∀ (R P : List ManifestEntry) (s : SyncState),
      ((P ++ R).map (fun g => g.name)).Nodup →
      s.web = ⟨midItems enrich ft snapshot n0 P, midNext enrich ft snapshot n0 P⟩ →
      ((R.foldl (fun s g => (processPlugin noFail enrich ft snapshot g s).1) s)).web =
        ⟨midItems enrich ft snapshot n0 (P ++ R),
         midNext enrich ft snapshot n0 (P ++ R)⟩ := by
  intro R
  induction R with
  | nil =>
    intro P s hnd hw
    simpa using hw
  | cons g R ih =>
    intro P s hnd hw
    simp only [List.foldl_cons]
    have hgP : ∀ g' ∈ P, g'.name ≠ g.name := by
      intro g' hg' he
      have h1 : ((P.map fun g => g.name) ++ ((g :: R).map fun g => g.name)).Nodup := by
        rw [← List.map_append]; exact hnd
      rcases List.nodup_append.mp h1 with ⟨_, _, hdisj⟩
      exact hdisj (List.mem_map.mpr ⟨g', hg', rfl⟩)
        (List.mem_map.mpr ⟨g, List.mem_cons_self _ _, he.symm⟩)
    have hstep := midItems_step enrich ft snapshot n0 hsn hsi hsb P g hgP s hw
    have hnd' : (((P ++ [g]) ++ R).map fun g => g.name).Nodup := by
      simpa [List.append_assoc] using hnd
    have hres := ih (P ++ [g]) (processPlugin noFail enrich ft snapshot g s).1 hnd' hstep
    simpa [List.append_assoc] using hres

theorem runBatches_noFail_web (enrich : ManifestEntry → Enrichment)
    (ft : String → String) (M : List ManifestEntry) (web0 : WebflowState)
    (alg0 : List AlgoliaItem)
    (hM : (M.map fun g => g.name).Nodup)
    (hsn : (web0.items.map fun x => x.fieldData.name).Nodup)
    (hsi : (web0.items.map fun x => x.id).Nodup)
    (hsb : ∀ x ∈ web0.items, x.id < web0.nextId) :
    ((runBatches (processPlugin noFail enrich ft web0.items) M
      ⟨web0, alg0, emptyReport⟩).1).web =
      ⟨midItems enrich ft web0.items web0.nextId M,
       midNext enrich ft web0.items web0.nextId M⟩ := by
  rw [runBatches_fst]
  have h0 : (⟨web0, alg0, emptyReport⟩ : SyncState).web =
      ⟨midItems enrich ft web0.items web0.nextId [],
       midNext enrich ft web0.items web0.nextId []⟩ := by
    unfold midItems midNext createsList createsSpec
    rw [List.filterMap_congr (fun it _ => fateOne_nil enrich ft it)]
    simp [withIds]
  have hres := midItems_run enrich ft web0.items web0.nextId hsn hsi hsb M []
    ⟨web0, alg0, emptyReport⟩ (by simpa using hM) h0
  simpa using hres

theorem fateOne_found (enrich : ManifestEntry → Enrichment) (ft : String → String)
    {P : List ManifestEntry} {it : WebflowItem} {g' : ManifestEntry}
    (hfm : findManifestByName P it.fieldData.name = some g') :
    fateOne enrich ft P it =
      match contentOf (enrich g').readme with
      | none => none
      | some c =>
        if isPluginEqual g' it.fieldData c
        then some ⟨it.id, mkFieldData ft g' (basename g'.githubUrl) c (enrich g')⟩
        else some it := by
  unfold fateOne
  rw [hfm]

theorem syncRun_noFail_web_items (enrich : ManifestEntry → Enrichment)
    (ft : String → String) (M : List ManifestEntry) (web0 : WebflowState)
    (alg0 : List AlgoliaItem)
    (hM : (M.map fun g => g.name).Nodup)
    (hsn : (web0.items.map fun x => x.fieldData.name).Nodup)
    (hsi : (web0.items.map fun x => x.id).Nodup)
    (hsb : ∀ x ∈ web0.items, x.id < web0.nextId) :
    (syncRun noFail enrich ft M web0 alg0).1.web.items =
      (midItems enrich ft web0.items web0.nextId M).filter
        (fun x => !((orphanIds M web0.items).contains x.id)) := by
  rw [syncRun_fst, orphanPass_noFail_web,
    runBatches_noFail_web enrich ft M web0 alg0 hM hsn hsi hsb]

/-- Every content-store item surviving a run without store failures belongs
to a content-ful manifest entry whose tracked fields it matches. -/
theorem mem_syncRun_web (enrich : ManifestEntry → Enrichment)
    (ft : String → String) (M : List ManifestEntry) (web0 : WebflowState)
    (alg0 : List AlgoliaItem)
    (hM : (M.map fun g => g.name).Nodup)
    (hsn : (web0.items.map fun x => x.fieldData.name).Nodup)
    (hsi : (web0.items.map fun x => x.id).Nodup)
    (hsb : ∀ x ∈ web0.items, x.id < web0.nextId) :
    ∀ x ∈ (syncRun noFail enrich ft M web0 alg0).1.web.items,
      ∃ g' ∈ M, ∃ c', contentOf (enrich g').readme = some c' ∧
        x.fieldData.name = g'.name ∧ isPluginEqual g' x.fieldData c' = false := by
  intro x hx
  rw [syncRun_noFail_web_items enrich ft M web0 alg0 hM hsn hsi hsb] at hx
  have hx' := List.mem_filter.mp hx
  rcases List.mem_append.mp hx'.1 with hfate | hcre
  · rcases List.mem_filterMap.mp hfate with ⟨it, hits, hfo⟩
    cases hfm : findManifestByName M it.fieldData.name with
    | none =>
      rw [fateOne_untouched hfm] at hfo
      have hxit : x = it := (Option.some.inj hfo).symm
      exfalso
      have hmem : it.id ∈ orphanIds M web0.items := by
        simp only [orphanIds, List.mem_map]
        exact ⟨it, List.mem_filter.mpr ⟨hits, by simp [hfm]⟩, rfl⟩
      have hcont : (orphanIds M web0.items).contains x.id = true := by
        rw [hxit]; simp [hmem]
      rw [hcont] at hx'
      simp at hx'
    | some g' =>
      have hg'm : g' ∈ M := findManifestByName_some_mem hfm
      have hg'n : g'.name = it.fieldData.name := findManifestByName_some_name hfm
      rw [fateOne_found enrich ft hfm] at hfo
      cases hcg : contentOf (enrich g').readme with
      | none => rw [hcg] at hfo; simp at hfo
      | some c' =>
        rw [hcg] at hfo
        cases he : isPluginEqual g' it.fieldData c' with
        | true =>
          simp [he] at hfo
          refine ⟨g', hg'm, c', hcg, ?_, ?_⟩
          · rw [← hfo]; rfl
          · rw [← hfo]
            exact isPluginEqual_mkFieldData ft g' (basename g'.githubUrl) c' (enrich g')
        | false =>
          simp [he] at hfo
          refine ⟨g', hg'm, c', hcg, ?_, ?_⟩
          · rw [← hfo, hg'n]
          · rw [← hfo]; exact he
  · have hm1 := mem_withIds hcre
    rcases mem_createsSpec hm1.2 with ⟨g', hg', c', hc', hf', hfd⟩
    refine ⟨g', hg', c', hc', ?_, ?_⟩
    · rw [hfd]; rfl
    · rw [hfd]
      exact isPluginEqual_mkFieldData ft g' (basename g'.githubUrl) c' (enrich g')

/-- After a run without store failures, every content-ful manifest entry has
a content-store item carrying its name. -/
theorem syncRun_web_covers (enrich : ManifestEntry → Enrichment)
    (ft : String → String) (M : List ManifestEntry) (web0 : WebflowState)
    (alg0 : List AlgoliaItem)
    (hM : (M.map fun g => g.name).Nodup)
    (hsn : (web0.items.map fun x => x.fieldData.name).Nodup)
    (hsi : (web0.items.map fun x => x.id).Nodup)
    (hsb : ∀ x ∈ web0.items, x.id < web0.nextId) :
    ∀ g ∈ M, ∀ c, contentOf (enrich g).readme = some c →
      ∃ x ∈ (syncRun noFail enrich ft M web0 alg0).1.web.items,
        x.fieldData.name = g.name := by
  intro g hg c hc
  rw [syncRun_noFail_web_items enrich ft M web0 alg0 hM hsn hsi hsb]
  cases hf : findPluginByName web0.items g.name with
  | some w =>
    have hwmem : w ∈ web0.items := findPluginByName_some_mem hf
    have hwname : w.fieldData.name = g.name := findPluginByName_some_name hf
    have hfm : findManifestByName M w.fieldData.name = some g := by
      cases hfm0 : findManifestByName M w.fieldData.name with
      | none =>
        exact absurd (findManifestByName_eq_none.mp hfm0 g hg) (by rw [hwname]; simp)
      | some g'' =>
        have hg''m := findManifestByName_some_mem hfm0
        have hg''n := findManifestByName_some_name hfm0
        have : g'' = g :=
          List.inj_on_of_nodup_map hM hg''m hg (hg''n.trans hwname)
        rw [this]
    have hfo : ∃ x, fateOne enrich ft M w = some x ∧
        x.fieldData.name = g.name ∧ x.id = w.id := by
      rw [fateOne_found enrich ft hfm, hc]
      cases he : isPluginEqual g w.fieldData c with
      | true =>
        refine ⟨⟨w.id, mkFieldData ft g (basename g.githubUrl) c (enrich g)⟩,
          by simp [he], rfl, rfl⟩
      | false => exact ⟨w, by simp [he], hwname, rfl⟩
    rcases hfo with ⟨x, hfo, hxn, hxid⟩
    refine ⟨x, ?_, hxn⟩
    apply List.mem_filter.mpr
    refine ⟨List.mem_append.mpr (Or.inl (List.mem_filterMap.mpr ⟨w, hwmem, hfo⟩)), ?_⟩
    have hnot : x.id ∉ orphanIds M web0.items := by
      intro hmem
      rcases List.mem_map.mp hmem with ⟨iy, hiy, hiyid⟩
      have hiy' := List.mem_filter.mp hiy
      have hiyw : iy = w :=
        List.inj_on_of_nodup_map hsi hiy'.1 hwmem (by rw [hiyid, hxid])
      rw [hiyw, hfm] at hiy'
      simp at hiy'
    simp [hnot]
  | none =>
    have hfd : mkFieldData ft g (basename g.githubUrl) c (enrich g) ∈
        createsSpec enrich ft web0.items M :=
      createsSpec_mem_of enrich ft web0.items hg hc hf
    have hmap : mkFieldData ft g (basename g.githubUrl) c (enrich g) ∈
        (withIds web0.nextId (createsSpec enrich ft web0.items M)).map
          (fun x => x.fieldData) := by
      rw [withIds_map_fieldData]; exact hfd
    rcases List.mem_map.mp hmap with ⟨x, hxmem, hxfd⟩
    refine ⟨x, ?_, by rw [hxfd]; rfl⟩
    apply List.mem_filter.mpr
    refine ⟨List.mem_append.mpr (Or.inr hxmem), ?_⟩
    have hx0 : web0.nextId ≤ x.id := (mem_withIds hxmem).1
    have hnot : x.id ∉ orphanIds M web0.items := by
      intro hmem
      rcases List.mem_map.mp hmem with ⟨iy, hiy, hiyid⟩
      have := hsb iy (List.mem_filter.mp hiy).1
      omega
    simp [hnot]

/-! ### C3: the reconciliation is idempotent -/

/-- C3: running the full reconciliation twice in succession with the same
manifest and the same enrichment results (and no store failures) produces
empty `created`, `updated` and `deleted` lists on the second run, provided
manifest names are unique and the initial catalog is well formed (unique
names, unique store-assigned ids below the id counter). -/
theorem claim3_idempotent (enrich : ManifestEntry → Enrichment)
    (ft : String → String) (M : List ManifestEntry)
    (web0 : WebflowState) (alg0 : List AlgoliaItem)
    (hM : (M.map fun g => g.name).Nodup)
    (hsn : (web0.items.map fun x => x.fieldData.name).Nodup)
    (hsi : (web0.items.map fun x => x.id).Nodup)
    (hsb : ∀ x ∈ web0.items, x.id < web0.nextId) :
    (syncRun noFail enrich ft M
      (syncRun noFail enrich ft M web0 alg0).1.web
      (syncRun noFail enrich ft M web0 alg0).1.alg).1.rep.created = [] ∧
    (syncRun noFail enrich ft M
      (syncRun noFail enrich ft M web0 alg0).1.web
      (syncRun noFail enrich ft M web0 alg0).1.alg).1.rep.updated = [] ∧
    (syncRun noFail enrich ft M
      (syncRun noFail enrich ft M web0 alg0).1.web
      (syncRun noFail enrich ft M web0 alg0).1.alg).1.rep.deleted = [] := by
  have hchar := mem_syncRun_web enrich ft M web0 alg0 hM hsn hsi hsb
  have hcov := syncRun_web_covers enrich ft M web0 alg0 hM hsn hsi hsb
  rw [syncRun_noFail_rep]
  dsimp only
  refine ⟨?_, ?_, ?_⟩
  · rw [List.flatMap_eq_nil_iff]
    intro g hg
    cases hcg : contentOf (enrich g).readme with
    | none => simp [createdDelta, createsEntry, hcg]
    | some c =>
      rcases hcov g hg c hcg with ⟨x, hx, hxn⟩
      have hsome : (findPluginByName
          (syncRun noFail enrich ft M web0 alg0).1.web.items g.name).isSome = true := by
        unfold findPluginByName
        rw [List.find?_isSome]
        exact ⟨x, hx, by simp [hxn]⟩
      rcases Option.isSome_iff_exists.mp hsome with ⟨w, hw⟩
      simp [createdDelta, createsEntry, hcg, hw]
  · rw [List.flatMap_eq_nil_iff]
    intro g hg
    cases hcg : contentOf (enrich g).readme with
    | none => simp [updatedDelta, updatesEntry, hcg]
    | some c =>
      cases hfg : findPluginByName
          (syncRun noFail enrich ft M web0 alg0).1.web.items g.name with
      | none => simp [updatedDelta, updatesEntry, hcg, hfg]
      | some wp =>
        have hwpmem := findPluginByName_some_mem hfg
        have hwpname := findPluginByName_some_name hfg
        rcases hchar wp hwpmem with ⟨g', hg', c', hc', hn', hiq⟩
        have hgg : g' = g :=
          List.inj_on_of_nodup_map hM hg' hg (hn'.symm.trans hwpname)
        subst hgg
        have hcc : c' = c := by
          rw [hc'] at hcg
          exact Option.some.inj hcg
        subst hcc
        simp [updatedDelta, updatesEntry, hcg, hfg, hiq]
  · rw [List.append_eq_nil]
    constructor
    · rw [List.flatMap_eq_nil_iff]
      intro g hg
      cases hcg : contentOf (enrich g).readme with
      | some c => simp [deletedDelta, hcg]
      | none =>
        have hfind : findPluginByName
            (syncRun noFail enrich ft M web0 alg0).1.web.items g.name = none := by
          apply findPluginByName_eq_none.mpr
          intro x hx hxn
          rcases hchar x hx with ⟨g', hg', c', hc', hn', _⟩
          have hgg : g' = g :=
            List.inj_on_of_nodup_map hM hg' hg (hn'.symm.trans hxn)
          subst hgg
          rw [hcg] at hc'
          cases hc'
        simp [deletedDelta, hcg, hfind]
    · have hfilter : (syncRun noFail enrich ft M web0 alg0).1.web.items.filter
          (fun wp => (findManifestByName M wp.fieldData.name).isNone) = [] := by
        rw [List.filter_eq_nil_iff]
        intro x hx
        rcases hchar x hx with ⟨g', hg', c', hc', hn', _⟩
        have hsome : (findManifestByName M x.fieldData.name).isSome = true := by
          unfold findManifestByName
          rw [List.find?_isSome]
          exact ⟨g', hg', by simp [hn'.symm]⟩
        rcases Option.isSome_iff_exists.mp hsome with ⟨w, hw⟩
        simp [hw]
      unfold orphanDeleted
      rw [hfilter]
      rfl

/-- Witness for `claim3_idempotent` at a concrete input. -/
theorem claim3_witness :
    ((([gActive] : List ManifestEntry).map fun g => g.name).Nodup) ∧
    ((((⟨[], 0⟩ : WebflowState)).items.map fun x => x.fieldData.name).Nodup) ∧
    ((((⟨[], 0⟩ : WebflowState)).items.map fun x => x.id).Nodup) ∧
    (∀ x ∈ (⟨[], 0⟩ : WebflowState).items, x.id < (⟨[], 0⟩ : WebflowState).nextId) ∧
    ((syncRun noFail enrR (fun s => s) [gActive]
        (syncRun noFail enrR (fun s => s) [gActive] ⟨[], 0⟩ []).1.web
        (syncRun noFail enrR (fun s => s) [gActive] ⟨[], 0⟩ []).1.alg).1.rep.created = [] ∧
      (syncRun noFail enrR (fun s => s) [gActive]
        (syncRun noFail enrR (fun s => s) [gActive] ⟨[], 0⟩ []).1.web
        (syncRun noFail enrR (fun s => s) [gActive] ⟨[], 0⟩ []).1.alg).1.rep.updated = [] ∧
      (syncRun noFail enrR (fun s => s) [gActive]
        (syncRun noFail enrR (fun s => s) [gActive] ⟨[], 0⟩ []).1.web
        (syncRun noFail enrR (fun s => s) [gActive] ⟨[], 0⟩ []).1.alg).1.rep.deleted = []) :=
  ⟨by decide, by decide, by decide, by decide,
   claim3_idempotent enrR (fun s => s) [gActive] ⟨[], 0⟩ []
     (by decide) (by decide) (by decide) (by decide)⟩

end Plugins
